import Mathlib

/-!
# LocalCollection: the local music collection store

A shallow embedding of `src/app/clientplugins/localresolver/LocalCollection.cpp`
(the SQLite-backed store of locally indexed audio files) and theorems about
its batch executor, its fuzzy resolver, its artist/tag interner, its
track-tag operations, its operations on files, directories and sources, its
aggregation of the tags and the opening of its database.

Conventions of the embedding:
* a `QString` that the code assembles from ids and commas is a list of
  tokens (`Tok`), so that the ids a chunk operation receives can be read
  back from the argument it is passed;
* SQL tables are lists of rows in insertion order, nullable columns are
  `Option`s, and every statement the code prepares is appended to a
  statement trace;
* C++ `int` results of `QVariant::toInt` are integers wrapped to 32 bits.
-/

namespace LocalCollection

/-! ## Conversion to `int` -/

/-- The conversion `QVariant::toInt()` of an integer value: the 64-bit value
cut to a C++ `int` (two's complement, 32 bits). -/
def toInt (v : Int) : Int := (v + 2147483648) % 4294967296 - 2147483648

/-! ## The batch executor -/

/-- One piece of the comma separated id string that `batch` assembles:
`ids.append(',')` adds `Tok.comma`, `ids.append(QString::number(i))` adds
`Tok.num i`. -/
inductive Tok where
  | comma : Tok
  | num (v : Int) : Tok
  deriving DecidableEq, Repr

/-- The ids that a comma separated id string lists, in order. -/
def idsOf : List Tok → List Int
  | [] => []
  | Tok.comma :: rest => idsOf rest
  | Tok.num v :: rest => v :: idsOf rest

/-- The comma separated rendering of an id list: `1,2,3`. -/
def joinIds : List Int → List Tok
  | [] => []
  | [v] => [Tok.num v]
  | v :: w :: rest => Tok.num v :: Tok.comma :: joinIds (w :: rest)

/-- The local variables of the `foreach` loop of `batch` (`count`, `ids`,
`first`) together with the object the chunk operation acts on. -/
structure BatchLoop (σ : Type) where
  count : Nat
  ids : List Tok
  first : Bool
  self : σ

/-- One iteration of the `foreach` loop of `LocalCollection::batch`, for the
element `v` of the `QVariantList`: the id appended is `v.toInt()`. -/
def batchStep {σ : Type} (batchFunc : σ → List Tok → σ) (st : BatchLoop σ) (v : Int) :
    BatchLoop σ :=
  let ids1 := if st.first then st.ids else st.ids ++ [Tok.comma]
  let ids2 := ids1 ++ [Tok.num (toInt v)]
  let count := st.count + 1
  if count % 100 = 0 then
    { count := count, ids := [], first := true, self := batchFunc st.self ids2 }
  else
    { count := count, ids := ids2, first := false, self := st.self }

/-- The state of `batch` when the `foreach` loop has run over `fileIds`. -/
def batchLoop {σ : Type} (batchFunc : σ → List Tok → σ) (self : σ) (fileIds : List Int) :
    BatchLoop σ :=
  fileIds.foldl (batchStep batchFunc)
    { count := 0, ids := [], first := true, self := self }

/-- The function `LocalCollection::batch(fileIds, batchFunc)`: the loop, then
the flush of a pending partial chunk (`if (!first)`). -/
def batch {σ : Type} (fileIds : List Int) (batchFunc : σ → List Tok → σ) (self : σ) : σ :=
  let st := batchLoop batchFunc self fileIds
  if !st.first then batchFunc st.self st.ids else st.self

/-- The arguments of the successive invocations of the chunk operation by
`batch`: the chunk operation is the one that records its argument. -/
def batchCalls (fileIds : List Int) : List (List Tok) :=
  batch fileIds (fun calls ids => calls ++ [ids]) []

/-- What the loop of `batch` has done after the ids `pre`, for the recording
chunk operation. -/
structure BatchInv (pre : List Int) (st : BatchLoop (List (List Tok))) : Prop where
  count_eq : st.count = pre.length
  first_iff : st.first = true ↔ st.ids = []
  pending : st.ids = joinIds (idsOf st.ids)
  pending_len : (idsOf st.ids).length = pre.length % 100
  calls_len : st.self.length = pre.length / 100
  calls_full : ∀ c ∈ st.self, (idsOf c).length = 100 ∧ c = joinIds (idsOf c)
  covered : (st.self.map idsOf).flatten ++ idsOf st.ids = pre.map toInt

/-! ## Qt conversions and string normalisation -/

/-- The conversion `QVariant::toUInt()` of a nullable SQLite integer: NULL gives 0, and a
value is cut to 32 bits. -/
def toUInt : Option Int → Nat
  | none => 0
  | some v => (v % 4294967296).toNat

/-- The test `QChar::isSpace()`: the characters 9 to 13 (tab, line feed,
vertical tab, form feed, carriage return) and the characters of the Unicode
categories Zs, Zl and Zp, which are the space, U+00A0, U+1680, U+180E,
U+2000 to U+200A, U+2028, U+2029, U+202F, U+205F and U+3000. -/
def isSpace (c : Char) : Bool :=
  (9 ≤ c.toNat && c.toNat ≤ 13) || c.toNat == 32 || c.toNat == 160 || c.toNat == 5760 ||
    c.toNat == 6158 || (8192 ≤ c.toNat && c.toNat ≤ 8202) || c.toNat == 8232 ||
    c.toNat == 8233 || c.toNat == 8239 || c.toNat == 8287 || c.toNat == 12288

/-- The scan of `QString::simplified()`: `started` says that a word has been
copied, `gap` that whitespace has been skipped since. -/
def simplifiedAux (started gap : Bool) : List Char → List Char
  | [] => []
  | c :: cs =>
    if isSpace c then simplifiedAux started started cs
    else if gap then Char.ofNat 32 :: c :: simplifiedAux true false cs
    else c :: simplifiedAux true false cs

/-- The function `QString::simplified()`: leading and trailing whitespace removed, every
inner run of whitespace replaced by one space. -/
def simplified (s : String) : String := String.mk (simplifiedAux false false s.data)

/-- The function `QString::toLower()` on the ASCII letters: `A` to `Z` become
`a` to `z`, and every other character is kept as it is (also the upper case
letters outside ASCII, which `QString::toLower()` maps as well). -/
def toLower (s : String) : String := String.mk (s.data.map Char.toLower)

/-! ## The database -/

/-- A row of `files`. -/
structure FileRow where
  id : Int
  directory : Int
  filename : String
  modification_date : Option Int
  lowercase_title : String
  artist : Option Int
  album : String
  kbps : Option Int
  duration : Option Int
  mbid : Option String
  puid : Option String
  lastfm_fpid : Option Int
  tag_time : Option Int
  deriving DecidableEq, Repr

/-- A row of `artists`. -/
structure ArtistRow where
  id : Int
  lowercase_name : String
  deriving DecidableEq, Repr

/-- A row of `simartists`. -/
structure SimArtistRow where
  artist_a : Option Int
  artist_b : Option Int
  weight : Option Int
  deriving DecidableEq, Repr

/-- A row of `tags`. -/
structure TagRow where
  id : Int
  name : String
  deriving DecidableEq, Repr

/-- A row of `tracktags`. The column `user_id` is named by the statements of
`insertTrackTag` and `deleteTrackTagsForArtist`; a row of a table without
that column has `user_id = none`. -/
structure TrackTagRow where
  file : Int
  tag : Int
  weight : Int
  user_id : Option Int
  deriving DecidableEq, Repr

/-- A row of `directories`. -/
structure DirectoryRow where
  id : Int
  source : Option Int
  path : String
  deriving DecidableEq, Repr

/-- A row of `sources`. -/
structure SourceRow where
  id : Int
  volume : String
  available : Int
  deriving DecidableEq, Repr

/-- A row of `startDirs`. -/
structure StartDirRow where
  id : Int
  path : String
  source : Option Int
  deriving DecidableEq, Repr

/-- A row of `exclusions`. -/
structure ExclusionRow where
  id : Int
  path : String
  startDir : Option Int
  subDirs : Option Int
  deriving DecidableEq, Repr

/-- The SQLite database behind `m_db`: the rows of every table in insertion
order, the columns of `tracktags` (the table whose columns the statements
and the schema disagree on), and the `AUTOINCREMENT` counters that SQLite
keeps in `sqlite_sequence`. -/
structure Database where
  files : List FileRow
  artists : List ArtistRow
  simartists : List SimArtistRow
  tags : List TagRow
  tracktags : List TrackTagRow
  tracktagsColumns : List String
  directories : List DirectoryRow
  sources : List SourceRow
  startDirs : List StartDirRow
  exclusions : List ExclusionRow
  metadata : List (String × Option String)
  filesSeq : Int
  artistsSeq : Int
  tagsSeq : Int
  directoriesSeq : Int
  sourcesSeq : Int
  deriving DecidableEq, Repr

/-- The id SQLite gives to a row inserted with a NULL `INTEGER PRIMARY KEY
AUTOINCREMENT`: one more than the largest id the table has ever held. -/
def nextRowId (seq : Int) (ids : List Int) : Int := ids.foldl max seq + 1

/-- A statement that the code prepares (`PREPARE`) or runs (`QUERY`), with the
values it binds. -/
inductive Stmt where
  | selectArtistId (lowercase_name : String)
  | insertArtist (lowercase_name : String)
  | selectTagId (name : String)
  | insertTag (name : String)
  | deleteTrackTags (artistId : Int) (userId : Nat)
  | insertTrackTags (artistId tagId weight : Int) (userId : Nat)
  | selectResolve (artist title : String)
  | insertFile (directory : Int) (filename : String) (artist : Int)
  | updateFile (fileId artist : Int)
  | deleteFilesIn (ids : List Tok)
  | deleteTrackTagsIn (ids : List Tok)
  | insertDirectory (source : Int) (path : String)
  | deleteDirectory (directoryId : Int)
  | insertSource (volume : String)
  | updateSourceAvailable (sourceId available : Int)
  | begin
  | commit
  | rollback
  deriving DecidableEq, Repr

/-- A `LocalCollection` object: its database and the statements it has issued
so far, oldest first. -/
structure Store where
  db : Database
  trace : List Stmt
  deriving DecidableEq, Repr

/-- Append a statement to the trace. -/
def Store.issue (s : Store) (q : Stmt) : Store := { s with trace := s.trace ++ [q] }

/-- The exception `QueryError`. -/
structure QueryError where
  what : String
  deriving DecidableEq, Repr

/-- The test SQLite makes on the column names of a statement it prepares:
every column the statement names is a column of the table. -/
def hasColumns (tableColumns named : List String) : Bool :=
  named.all (fun c => tableColumns.contains c)

/-- Modelled from the spec: the class `ChainableQuery` behind `PREPARE` is not
in the sources. By the error design of the spec a statement that the engine
rejects is a `QueryFailed` error that propagates to the caller: preparing a
statement that names a column its table does not have raises `QueryError`,
and the statement changes no table. -/
def prepareColumns (tableColumns named : List String) : Except QueryError Unit :=
  if hasColumns tableColumns named then Except.ok ()
  else Except.error { what := "no such column" }

/-- The enum `LocalCollection::Creation`. -/
inductive Creation where
  | Create
  | NoCreate
  deriving DecidableEq, Repr

/-- The macro `LEVENSHTEIN_ARTIST_THRESHOLD`, the SQL literal `0.7`. The
similarity scores are rationals: a finite double is a rational, and a double
is above the double nearest to 0.7 exactly when it is above 7/10. -/
def LEVENSHTEIN_ARTIST_THRESHOLD : ℚ := 7 / 10

/-- The macro `LEVENSHTEIN_TITLE_THRESHOLD`. -/
def LEVENSHTEIN_TITLE_THRESHOLD : ℚ := 7 / 10

/-! ## The artist and tag interner -/

/-- The function `LocalCollection::getArtistId`: returns 0 if the artist does
not exist and `flag` is `NoCreate`. -/
def getArtistId (s : Store) (artistName : String) (flag : Creation) : Int × Store :=
  let lowercase_name := toLower (simplified artistName)
  let s1 := s.issue (Stmt.selectArtistId lowercase_name)
  match s.db.artists.find? (fun a => decide (a.lowercase_name = lowercase_name)) with
  | some a => (toInt a.id, s1)
  | none =>
    match flag with
    | Creation.Create =>
      let artistId := nextRowId s.db.artistsSeq (s.db.artists.map (fun a => a.id))
      let s2 := s1.issue (Stmt.insertArtist lowercase_name)
      (toInt artistId,
        { s2 with db := { s2.db with
            artists := s2.db.artists ++ [{ id := artistId, lowercase_name := lowercase_name }],
            artistsSeq := artistId } })
    | Creation.NoCreate => (0, s1)

/-- The function `LocalCollection::getTagId`. -/
def getTagId (s : Store) (tag : String) (flag : Creation) : Int × Store :=
  let tag := toLower (simplified tag)
  let s1 := s.issue (Stmt.selectTagId tag)
  match s.db.tags.find? (fun t => decide (t.name = tag)) with
  | some t => (toInt t.id, s1)
  | none =>
    match flag with
    | Creation.Create =>
      let id := nextRowId s.db.tagsSeq (s.db.tags.map (fun t => t.id))
      let s2 := s1.issue (Stmt.insertTag tag)
      (toInt id,
        { s2 with db := { s2.db with
            tags := s2.db.tags ++ [{ id := id, name := tag }],
            tagsSeq := id } })
    | Creation.NoCreate => (0, s1)

/-! ## The fuzzy resolver -/

/-- The class `LocalCollection::ResolveResult`, a match of `resolve`. -/
structure ResolveResult where
  artist : String
  album : String
  title : String
  artistMatchQuality : ℚ
  titleMatchQuality : ℚ
  filename : String
  kbps : Nat
  duration : Nat
  path : String
  volume : String
  deriving DecidableEq, Repr

/-- One row of `files AS f INNER JOIN artists AS a INNER JOIN directories AS d
INNER JOIN sources AS s`. -/
structure ResolveRow where
  f : FileRow
  a : ArtistRow
  d : DirectoryRow
  s : SourceRow
  deriving DecidableEq, Repr

/-- The `FROM` clause of the query of `resolve`: `files AS f INNER JOIN
artists AS a ON f.artist = a.id INNER JOIN directories AS d ON f.directory =
d.id INNER JOIN sources AS s ON d.source = s.id`. A NULL never joins. -/
def resolveFrom (db : Database) : List ResolveRow :=
  db.files.flatMap fun f =>
    (db.artists.filter fun a => decide (f.artist = some a.id)).flatMap fun a =>
      (db.directories.filter fun d => decide (f.directory = d.id)).flatMap fun d =>
        (db.sources.filter fun s => decide (d.source = some s.id)).map fun s =>
          { f := f, a := a, d := d, s := s }

/-- The subselect of `resolve`: `SELECT id FROM artists WHERE
levenshtein(lowercase_name, :artist) > LEVENSHTEIN_ARTIST_THRESHOLD`. -/
def resolveArtistIds (levenshtein : String → String → ℚ) (db : Database) (artist : String) :
    List Int :=
  (db.artists.filter fun a =>
    decide (levenshtein a.lowercase_name artist > LEVENSHTEIN_ARTIST_THRESHOLD)).map
      fun a => a.id

/-- The `WHERE` clause of `resolve`: `s.available = 1 AND a.id IN (subselect)
AND tq > LEVENSHTEIN_TITLE_THRESHOLD`, where `tq` is
`levenshtein(f.lowercase_title, :title)`. -/
def resolveWhere (levenshtein : String → String → ℚ) (db : Database) (artist title : String)
    (r : ResolveRow) : Bool :=
  decide (r.s.available = 1) &&
    (resolveArtistIds levenshtein db artist).contains r.a.id &&
    decide (levenshtein r.f.lowercase_title title > LEVENSHTEIN_TITLE_THRESHOLD)

/-- The columns `resolve` selects, as the `ResolveResult` it builds from them:
`aq` is the constant `1.0`. -/
def resolveSelect (levenshtein : String → String → ℚ) (title : String) (r : ResolveRow) :
    ResolveResult :=
  { artist := r.a.lowercase_name
    album := r.f.album
    title := r.f.lowercase_title
    artistMatchQuality := 1
    titleMatchQuality := levenshtein r.f.lowercase_title title
    filename := r.f.filename
    kbps := toUInt r.f.kbps
    duration := toUInt r.f.duration
    path := r.d.path
    volume := r.s.volume }

/-- The function `LocalCollection::resolve(artist, album, title)`, for the
similarity function `levenshtein` that `addUserFuncs` registers. -/
def resolve (levenshtein : String → String → ℚ) (s : Store) (artist _album title : String) :
    List ResolveResult × Store :=
  if artist = "" ∨ title = "" then ([], s)
  else
    let boundArtist := toLower (simplified artist)
    let boundTitle := toLower (simplified title)
    (((resolveFrom s.db).filter (resolveWhere levenshtein s.db boundArtist boundTitle)).map
        (resolveSelect levenshtein boundTitle),
      s.issue (Stmt.selectResolve boundArtist boundTitle))

/-! ## Track tags -/

/-- The class `WeightedString`: a string with a weighting. -/
structure WeightedString where
  str : String
  weighting : Int
  deriving DecidableEq, Repr

/-- The subselect `SELECT id FROM files WHERE artist == :artistId`. -/
def filesOfArtist (db : Database) (artistId : Int) : List Int :=
  (db.files.filter fun f => decide (f.artist = some artistId)).map fun f => f.id

/-- The function `LocalCollection::deleteTrackTagsForArtist`: `DELETE FROM
tracktags WHERE user_id == :userId AND file IN (SELECT id FROM files WHERE
artist == :artistId)`. The `Q_ASSERT` is compiled out of a release build. -/
def deleteTrackTagsForArtist (s : Store) (artistId : Int) (userId : Nat) :
    Except QueryError Unit × Store :=
  let s1 := s.issue (Stmt.deleteTrackTags artistId userId)
  match prepareColumns s.db.tracktagsColumns ["user_id", "file"] with
  | Except.ok _ =>
    (Except.ok (),
      { s1 with db := { s1.db with
          tracktags := s1.db.tracktags.filter fun t =>
            !(decide (t.user_id = some (userId : Int)) &&
              (filesOfArtist s.db artistId).contains t.file) } })
  | Except.error e => (Except.error e, s1)

/-- The function `LocalCollection::deleteGlobalTrackTagsForArtist`. -/
def deleteGlobalTrackTagsForArtist (s : Store) (artistId : Int) :
    Except QueryError Unit × Store :=
  deleteTrackTagsForArtist s artistId 0

/-- The function `LocalCollection::insertTrackTag`: `INSERT INTO tracktags
(file, tag, weight, user_id) SELECT id, :tagId, :weight, :userId FROM files
WHERE artist == :artistId`. -/
def insertTrackTag (s : Store) (artistId tagId : Int) (userId : Nat) (weight : Int) :
    Except QueryError Unit × Store :=
  let s1 := s.issue (Stmt.insertTrackTags artistId tagId weight userId)
  match prepareColumns s.db.tracktagsColumns ["file", "tag", "weight", "user_id"] with
  | Except.ok _ =>
    (Except.ok (),
      { s1 with db := { s1.db with
          tracktags := s1.db.tracktags ++
            (filesOfArtist s.db artistId).map fun fileId =>
              { file := fileId, tag := tagId, weight := weight,
                user_id := some (userId : Int) } } })
  | Except.error e => (Except.error e, s1)

/-- The function `LocalCollection::insertGlobalArtistTag`. -/
def insertGlobalArtistTag (s : Store) (artistId tagId weight : Int) :
    Except QueryError Unit × Store :=
  insertTrackTag s artistId tagId 0 weight

/-- The `foreach` loop of `setGlobalTagsForArtist`; an exception ends it. -/
def setGlobalTagsLoop (artistId : Int) : Store → List WeightedString →
    Except QueryError Unit × Store
  | s, [] => (Except.ok (), s)
  | s, tag :: rest =>
    let r := getTagId s tag.str Creation.Create
    match insertGlobalArtistTag r.2 artistId r.1 tag.weighting with
    | (Except.ok _, s2) => setGlobalTagsLoop artistId s2 rest
    | (Except.error e, s2) => (Except.error e, s2)

/-- The function `LocalCollection::setGlobalTagsForArtist`. -/
def setGlobalTagsForArtist (s : Store) (artist : String) (globalTags : List WeightedString) :
    Except QueryError Unit × Store :=
  let r := getArtistId s artist Creation.Create
  match deleteGlobalTrackTagsForArtist r.2 r.1 with
  | (Except.ok _, s2) => setGlobalTagsLoop r.1 s2 globalTags
  | (Except.error e, s2) => (Except.error e, s2)

/-- The global tag edges (`user_id` 0) on the files of an artist. -/
def globalTagsOfArtist (db : Database) (artistId : Int) : List TrackTagRow :=
  db.tracktags.filter fun t =>
    decide (t.user_id = some 0) && (filesOfArtist db artistId).contains t.file

/-! ## Files and the schema -/

/-- The class `FileMeta`. -/
structure FileMeta where
  m_artist : String
  m_album : String
  m_title : String
  m_kbps : Int
  m_duration : Int
  deriving DecidableEq, Repr

/-- The function `LocalCollection::addFile`. -/
def addFile (s : Store) (directoryId : Int) (filename : String) (lastModified : Nat)
    (info : FileMeta) : Store :=
  let r := getArtistId s info.m_artist Creation.Create
  let s1 := r.2.issue (Stmt.insertFile directoryId filename r.1)
  let fileId := nextRowId s1.db.filesSeq (s1.db.files.map fun f => f.id)
  { s1 with db := { s1.db with
      files := s1.db.files ++
        [{ id := fileId, directory := directoryId, filename := filename,
           modification_date := some (lastModified : Int),
           lowercase_title := toLower (simplified info.m_title),
           artist := some r.1, album := info.m_album,
           kbps := some info.m_kbps, duration := some info.m_duration,
           mbid := none, puid := none, lastfm_fpid := none, tag_time := none }],
      filesSeq := fileId } }

/-- The database that `initDatabase` creates when there is no `metadata`
table: every table empty, `tracktags` with the columns `file`, `tag` and
`weight` of its `CREATE TABLE`, and the version row. -/
def createdDatabase : Database :=
  { files := [], artists := [], simartists := [], tags := [], tracktags := [],
    tracktagsColumns := ["file", "tag", "weight"],
    directories := [], sources := [], startDirs := [], exclusions := [],
    metadata := [("version", some "3")],
    filesSeq := 0, artistsSeq := 0, tagsSeq := 0, directoriesSeq := 0, sourcesSeq := 0 }

/-- The statements that a call has issued: the trace of the store it leaves,
without the trace of the store it was called on. -/
def issuedBy (before after : Store) : List Stmt := after.trace.drop before.trace.length

/-- A statement that writes `tracktags` for an artist: the `DELETE` of
`deleteTrackTagsForArtist` or the `INSERT` of `insertTrackTag`. -/
def Stmt.writesTrackTags : Stmt → Bool
  | Stmt.deleteTrackTags _ _ => true
  | Stmt.insertTrackTags _ _ _ _ => true
  | _ => false

/-- A sequence of issued statements does its track tag writes inside one
transaction: a `BEGIN` comes before them and the `COMMIT` after them. -/
def InOneTransaction (issued : List Stmt) : Prop :=
  ∃ pre mid post, issued = pre ++ Stmt.begin :: mid ++ Stmt.commit :: post ∧
    (∀ q ∈ pre, q.writesTrackTags = false) ∧ (∀ q ∈ post, q.writesTrackTags = false)

/-! ## Store invariants -/

/-- The constraints of the `artists` table and the range of its ids: the ids
are positive C++ `int`s with room for one more, they are distinct (`PRIMARY
KEY`) and so are the names (`UNIQUE`). -/
def ArtistsOk (db : Database) : Prop :=
  (∀ a ∈ db.artists, 0 < a.id ∧ a.id < 2147483647) ∧
  (0 ≤ db.artistsSeq ∧ db.artistsSeq < 2147483647) ∧
  (db.artists.map fun a => a.id).Nodup ∧
  (db.artists.map fun a => a.lowercase_name).Nodup

instance (db : Database) : Decidable (ArtistsOk db) := by
  unfold ArtistsOk; infer_instance

/-- The constraint `volume TEXT UNIQUE` of the `sources` table. -/
def SourcesOk (db : Database) : Prop :=
  (db.sources.map fun s => s.volume).Nodup

instance (db : Database) : Decidable (SourcesOk db) := by
  unfold SourcesOk; infer_instance

/-- The `tracktags` table has the columns `file`, `tag` and `weight` of its
`CREATE TABLE`, and when it has no `user_id` column its rows have no user
id. -/
def TrackTagsOk (db : Database) : Prop :=
  hasColumns db.tracktagsColumns ["file", "tag", "weight"] = true ∧
  (db.tracktagsColumns.contains "user_id" = false → ∀ t ∈ db.tracktags, t.user_id = none)

instance (db : Database) : Decidable (TrackTagsOk db) := by
  unfold TrackTagsOk; infer_instance

/-! ## Example stores -/

/-- A file row with the columns that `addFile` writes. -/
def exampleFile (id directory artist : Int) (filename title : String) : FileRow :=
  { id := id, directory := directory, filename := filename, modification_date := some 0,
    lowercase_title := title, artist := some artist, album := "a night at the opera",
    kbps := some 128, duration := some 354,
    mbid := none, puid := none, lastfm_fpid := none, tag_time := none }

/-- A store with the schema of `initDatabase`: the artist Queen with the same
track on an available source (volume `/`) and on an unavailable one. -/
def exampleStore : Store :=
  { db := { createdDatabase with
      files := [exampleFile 1 1 1 "01.mp3" "bohemian rhapsody",
        exampleFile 2 2 1 "01.mp3" "bohemian rhapsody"],
      artists := [{ id := 1, lowercase_name := "queen" }],
      directories := [{ id := 1, source := some 1, path := "/music" },
        { id := 2, source := some 2, path := "/music" }],
      sources := [{ id := 1, volume := "/", available := 1 },
        { id := 2, volume := "/media/usb", available := 0 }],
      filesSeq := 2, artistsSeq := 1, directoriesSeq := 2, sourcesSeq := 2 },
    trace := [] }

/-- The store `exampleStore` when its `tracktags` table has the `user_id`
column that `insertTrackTag` writes, with a global and a personal tag on the
first file. -/
def exampleStoreUserId : Store :=
  { exampleStore with db := { exampleStore.db with
      tags := [{ id := 1, name := "rock" }, { id := 2, name := "seen live" }],
      tagsSeq := 2,
      tracktagsColumns := ["file", "tag", "weight", "user_id"],
      tracktags := [{ file := 1, tag := 1, weight := 80, user_id := some 0 },
        { file := 1, tag := 2, weight := 100, user_id := some 7 }] } }

/-- The store after `initDatabase` on an empty file and one `addFile`. -/
def scannedStore : Store :=
  addFile { db := createdDatabase, trace := [] } 1 "01.mp3" 0
    { m_artist := "Queen", m_album := "A Night at the Opera", m_title := "Bohemian Rhapsody",
      m_kbps := 128, m_duration := 354 }

/-- A similarity function for examples: 1 on equal strings, 0 otherwise. -/
def exactMatch (a b : String) : ℚ := if a = b then 1 else 0

/-! ## Removal of files -/

/-- One iteration of the `foreach` loop of `removeFiles`, on the variables
`first` and `s`. -/
def removeFilesStep (st : Bool × List Tok) (i : Int) : Bool × List Tok :=
  let s1 := if st.1 then st.2 else st.2 ++ [Tok.comma]
  (false, s1 ++ [Tok.num i])

/-- The id string `s` that `removeFiles` assembles. -/
def removeFilesIds (ids : List Int) : List Tok := (ids.foldl removeFilesStep (true, [])).2

/-- The function `LocalCollection::removeFiles`: for a non-empty id list,
`DELETE FROM files WHERE id IN (s)` and then `DELETE FROM tracktags WHERE
file IN (s)`; the second statement names the column `file`. An exception of
the second statement leaves the first one done. -/
def removeFiles (s : Store) (ids : List Int) : Except QueryError Unit × Store :=
  if ids ≠ [] then
    let str := removeFilesIds ids
    let s1 := s.issue (Stmt.deleteFilesIn str)
    let s2 : Store := { s1 with db := { s1.db with
      files := s1.db.files.filter fun f => !(idsOf str).contains f.id } }
    let s3 := s2.issue (Stmt.deleteTrackTagsIn str)
    match prepareColumns s3.db.tracktagsColumns ["file"] with
    | Except.ok _ =>
      (Except.ok (),
        { s3 with db := { s3.db with
            tracktags := s3.db.tracktags.filter fun t => !(idsOf str).contains t.file } })
    | Except.error e => (Except.error e, s3)
  else (Except.ok (), s)

/-! ## Files, directories and sources -/

/-- The function `LocalCollection::updateFile`: the artist is interned, then
`UPDATE files SET ... WHERE id == :fileId` overwrites the modification date,
the title, the artist, the album, the bitrate and the duration. -/
def updateFile (s : Store) (fileId : Int) (lastModified : Nat) (info : FileMeta) : Store :=
  let r := getArtistId s info.m_artist Creation.Create
  let s1 := r.2.issue (Stmt.updateFile fileId r.1)
  { s1 with db := { s1.db with
      files := s1.db.files.map fun f =>
        if f.id = fileId then
          { f with modification_date := some (lastModified : Int),
                   lowercase_title := toLower (simplified info.m_title),
                   artist := some r.1, album := info.m_album,
                   kbps := some info.m_kbps, duration := some info.m_duration }
        else f } }

/-- The function `LocalCollection::addDirectory`: returns `ok` and the id of
the new row (`resultId`). -/
def addDirectory (s : Store) (sourceId : Int) (path : String) : (Bool × Int) × Store :=
  let s1 := s.issue (Stmt.insertDirectory sourceId path)
  let id := nextRowId s1.db.directoriesSeq (s1.db.directories.map fun d => d.id)
  ((true, toInt id),
    { s1 with db := { s1.db with
        directories := s1.db.directories ++ [{ id := id, source := some sourceId, path := path }],
        directoriesSeq := id } })

/-- The function `LocalCollection::removeDirectory`: `DELETE FROM directories
WHERE id = :directoryId`. -/
def removeDirectory (s : Store) (directoryId : Int) : Store :=
  let s1 := s.issue (Stmt.deleteDirectory directoryId)
  { s1 with db := { s1.db with
      directories := s1.db.directories.filter fun d => !decide (d.id = directoryId) } }

/-- The function `LocalCollection::addSource`: `INSERT INTO sources (id,
volume, available) VALUES (NULL, :volume, 1)`. The column `volume` is
`UNIQUE`: the engine rejects a volume that the table already has, which is a
`QueryError` as in `prepareColumns`. -/
def addSource (s : Store) (volume : String) : Except QueryError SourceRow × Store :=
  let s1 := s.issue (Stmt.insertSource volume)
  if (s1.db.sources.map fun src => src.volume).contains volume then
    (Except.error { what := "column volume is not unique" }, s1)
  else
    let id := nextRowId s1.db.sourcesSeq (s1.db.sources.map fun src => src.id)
    (Except.ok { id := toInt id, volume := volume, available := 1 },
      { s1 with db := { s1.db with
          sources := s1.db.sources ++ [{ id := id, volume := volume, available := 1 }],
          sourcesSeq := id } })

/-- The function `LocalCollection::setSourceAvailability`. -/
def setSourceAvailability (s : Store) (sourceId : Int) (available : Bool) : Store :=
  let s1 := s.issue (Stmt.updateSourceAvailable sourceId (if available then 1 else 0))
  { s1 with db := { s1.db with
      sources := s1.db.sources.map fun src =>
        if src.id = sourceId then { src with available := if available then 1 else 0 }
        else src } }

/-- Every file row's artist is the id of an artist row. -/
def ArtistFk (db : Database) : Prop :=
  ∀ f ∈ db.files, ∃ a ∈ db.artists, f.artist = some a.id

instance (db : Database) : Decidable (ArtistFk db) := by
  unfold ArtistFk; infer_instance

/-- Every file row's directory is the id of a directory row. -/
def DirectoryFk (db : Database) : Prop :=
  ∀ f ∈ db.files, ∃ d ∈ db.directories, f.directory = d.id

instance (db : Database) : Decidable (DirectoryFk db) := by
  unfold DirectoryFk; infer_instance

/-! ## Resolution of a tag list -/

/-- The loop of `LocalCollection::resolveTags(tags, map)`: `map` is the
`QMap<QString, int>` in front of the database, a list of its entries with the
newest first; the result is the id list, the map and the store. -/
def resolveTagsLoop : Store → List (String × Int) → List String →
    List Int × List (String × Int) × Store
  | s, map, [] => ([], map, s)
  | s, map, tag :: rest =>
    match map.lookup tag with
    | some id =>
      let r := resolveTagsLoop s map rest
      (id :: r.1, r.2)
    | none =>
      let g := getTagId s tag Creation.Create
      let r := resolveTagsLoop g.2 ((tag, g.1) :: map) rest
      (g.1 :: r.1, r.2)

/-- The function `LocalCollection::resolveTags(tags)`, which starts with an
empty map. -/
def resolveTags (s : Store) (tags : List String) : List Int × Store :=
  let r := resolveTagsLoop s [] tags
  (r.1, r.2.2)

/-- The resolution without the map: `getTagId(tag, Create)` is called for
each element of the list, in order. -/
def getTagIdEach : Store → List String → List Int × Store
  | s, [] => ([], s)
  | s, tag :: rest =>
    let g := getTagId s tag Creation.Create
    let r := getTagIdEach g.2 rest
    (g.1 :: r.1, r.2)

/-- The statement of the lookup in `getTagId`; every call of `getTagId` issues
it once. -/
def Stmt.isSelectTagId : Stmt → Bool
  | Stmt.selectTagId _ => true
  | _ => false

/-- The map in front of the database agrees with the tags table: a cached id
is the id of the first tag row of the normalized name. -/
def CacheOk (db : Database) (map : List (String × Int)) : Prop :=
  ∀ k v, map.lookup k = some v →
    ∃ t, db.tags.find? (fun t => decide (t.name = toLower (simplified k))) = some t ∧
      toInt t.id = v

/-! ## Aggregation of the tags -/

/-- A row of the query of `allTags` as the loop reads it: `artist` and `tag`
after `toInt()` (a NULL artist reads as 0), `weight` the `avg(weight)` of the
group. -/
structure TagAvgRow where
  artist : Int
  tag : Int
  weight : ℚ
  deriving DecidableEq, Repr

/-- The struct `LocalCollection::Entry`; the weight of a tag is a rational
here, a `float` in the code. -/
structure Entry where
  artistId : Int
  tagVec : List (Int × ℚ)
  deriving DecidableEq, Repr

/-- The variables of the loop of `allTags`. -/
structure AllTagsLoop where
  prevArtistId : Int
  currentArtistTags : List (Int × ℚ)
  result : List Entry
  deriving DecidableEq, Repr

/-- One iteration of the `while ( query.next() )` loop of `allTags`. -/
def allTagsStep (st : AllTagsLoop) (row : TagAvgRow) : AllTagsLoop :=
  let weight := row.weight / 100
  let prev := if st.prevArtistId = 0 then row.artist else st.prevArtistId
  if prev ≠ row.artist then
    { prevArtistId := row.artist
      currentArtistTags := [(row.tag, weight)]
      result := st.result ++ [{ artistId := prev, tagVec := st.currentArtistTags }] }
  else
    { prevArtistId := prev
      currentArtistTags := st.currentArtistTags ++ [(row.tag, weight)]
      result := st.result }

/-- The state of `allTags` after the loop over the rows. -/
def allTagsLoop (rows : List TagAvgRow) : AllTagsLoop :=
  rows.foldl allTagsStep { prevArtistId := 0, currentArtistTags := [], result := [] }

/-- The function `LocalCollection::allTags`, on the rows that its query
(`GROUP BY artist, tag ORDER BY artist, tag`) returns: the loop, then the
entry of the last artist. -/
def allTags (rows : List TagAvgRow) : List Entry :=
  let st := allTagsLoop rows
  if st.currentArtistTags.length ≠ 0 then
    st.result ++ [{ artistId := st.prevArtistId, tagVec := st.currentArtistTags }]
  else st.result

/-- The tags of an artist in the rows, as `allTags` reports them. -/
def tagsOfArtist (rows : List TagAvgRow) (artistId : Int) : List (Int × ℚ) :=
  (rows.filter fun r => decide (r.artist = artistId)).map fun r => (r.tag, r.weight / 100)

/-! ## Opening the database -/

/-- The macro `LOCAL_COLLECTION_SCHEMA_VERSION_INT`. -/
def LOCAL_COLLECTION_SCHEMA_VERSION_INT : Int := 3

/-- The macro `LOCAL_COLLECTION_SCHEMA_VERSION_STR`. -/
def LOCAL_COLLECTION_SCHEMA_VERSION_STR : String := "3"

/-- The database file behind `m_db` as `initDatabase` finds it: the names of
its tables, as `m_db.tables()` lists them, and its rows. -/
structure DbFile where
  tables : List String
  content : Database
  deriving DecidableEq, Repr

/-- The tables of the `CREATE TABLE` statements of `initDatabase`, in the
order of the statements, each with its columns. The indexes that
`initDatabase` creates are not part of the model. -/
def schema : List (String × List String) :=
  [("files", ["id", "directory", "filename", "modification_date", "lowercase_title",
      "artist", "album", "kbps", "duration", "mbid", "puid", "lastfm_fpid", "tag_time"]),
    ("artists", ["id", "lowercase_name"]),
    ("simartists", ["artist_a", "artist_b", "weight"]),
    ("tags", ["id", "name"]),
    ("tracktags", ["file", "tag", "weight"]),
    ("directories", ["id", "source", "path"]),
    ("sources", ["id", "volume", "available"]),
    ("startDirs", ["id", "path", "source"]),
    ("exclusions", ["id", "path", "startDir", "subDirs"]),
    ("metadata", ["key", "value"])]

/-- The rows, the `AUTOINCREMENT` counter and the recorded columns of a table
are gone, as after `DROP TABLE`. -/
def clearTable (table : String) (db : Database) : Database :=
  if table = "files" then { db with files := [], filesSeq := 0 }
  else if table = "artists" then { db with artists := [], artistsSeq := 0 }
  else if table = "simartists" then { db with simartists := [] }
  else if table = "tags" then { db with tags := [], tagsSeq := 0 }
  else if table = "tracktags" then { db with tracktags := [], tracktagsColumns := [] }
  else if table = "directories" then { db with directories := [], directoriesSeq := 0 }
  else if table = "sources" then { db with sources := [], sourcesSeq := 0 }
  else if table = "startDirs" then { db with startDirs := [] }
  else if table = "exclusions" then { db with exclusions := [] }
  else if table = "metadata" then { db with metadata := [] }
  else db

/-- The columns of a new table are recorded for `tracktags`. -/
def setColumns (table : String) (columns : List String) (db : Database) : Database :=
  if table = "tracktags" then { db with tracktagsColumns := columns } else db

/-- The tables of `schema` whose `id` column is declared `INTEGER NOT NULL
PRIMARY KEY AUTOINCREMENT`. -/
def autoincrementTables : List String :=
  ["files", "artists", "tags", "directories", "sources", "startDirs", "exclusions"]

/-- The statement `DROP TABLE table`: the engine rejects it for the table
`sqlite_sequence`, in which SQLite keeps the `AUTOINCREMENT` counters and
which may not be dropped, and when there is no such table. -/
def dropTable (f : DbFile) (table : String) : Except QueryError Unit × DbFile :=
  if table = "sqlite_sequence" then
    (Except.error { what := "table sqlite_sequence may not be dropped" }, f)
  else if f.tables.contains table then
    (Except.ok (),
      { tables := f.tables.filter fun t => !decide (t = table),
        content := clearTable table f.content })
  else (Except.error { what := "no such table" }, f)

/-- The tables of the file after a `CREATE TABLE`: the new table, and after
it the table `sqlite_sequence` when the new table has an `AUTOINCREMENT`
column and the file has no `sqlite_sequence` yet (SQLite creates it with the
first such table, and `m_db.tables()` lists it). -/
def tablesAfterCreate (tables : List String) (table : String) : List String :=
  if autoincrementTables.contains table && !(tables.contains "sqlite_sequence") then
    tables ++ [table, "sqlite_sequence"]
  else tables ++ [table]

/-- The statement `CREATE TABLE table (columns)`: the engine rejects it when
the table exists; the new table is empty. -/
def createTable (f : DbFile) (entry : String × List String) : Except QueryError Unit × DbFile :=
  if f.tables.contains entry.1 then (Except.error { what := "table already exists" }, f)
  else
    (Except.ok (),
      { tables := tablesAfterCreate f.tables entry.1,
        content := setColumns entry.1 entry.2 (clearTable entry.1 f.content) })

/-- Modelled from the spec: the class `ChainableQuery` behind `QUERY` is not
in the sources. By the error design of the spec a statement that the engine
rejects is a `QueryFailed` error that propagates to the caller: the next
statement of a sequence runs when the ones before it have succeeded, and a
`QueryError` ends the sequence with the file as it is. -/
def andThen (r : Except QueryError Unit × DbFile)
    (step : DbFile → Except QueryError Unit × DbFile) : Except QueryError Unit × DbFile :=
  match r with
  | (Except.ok _, f) => step f
  | (Except.error e, f) => (Except.error e, f)

/-- The statement `INSERT INTO metadata (key, value) VALUES ('version',
LOCAL_COLLECTION_SCHEMA_VERSION_STR)`. -/
def insertVersion (f : DbFile) : Except QueryError Unit × DbFile :=
  (Except.ok (),
    { f with content := { f.content with
        metadata := f.content.metadata ++
          [("version", some LOCAL_COLLECTION_SCHEMA_VERSION_STR)] } })

/-- The body of `if ( !m_db.tables().contains( "metadata" ) )` in
`initDatabase`: the `CREATE TABLE` statements in order, then the version
row. -/
def createSchema (f : DbFile) : Except QueryError Unit × DbFile :=
  andThen (schema.foldl (fun r entry => andThen r fun g => createTable g entry)
    (Except.ok (), f)) insertVersion

/-- The loop `foreach ( QString table, m_db.tables() ) QUERY( "DROP TABLE " +
table )` of `versionCheck`. -/
def dropAll (f : DbFile) : Except QueryError Unit × DbFile :=
  f.tables.foldl (fun r table => andThen r fun g => dropTable g table) (Except.ok (), f)

/-- The decimal digits of a number, read from the left with the value so
far. -/
def parseDigits : List Char → Nat → Option Nat
  | [], acc => some acc
  | c :: cs, acc =>
    if c.isDigit then parseDigits cs (acc * 10 + (c.toNat - 48)) else none

/-- The conversion `QString::toLongLong(&ok)`: whitespace around the number is
skipped, a sign may come first, at least one digit follows and nothing else,
and the value is a 64-bit integer; `none` is `ok = false`. -/
def parseLongLong (text : String) : Option Int :=
  let cs := ((text.data.dropWhile isSpace).reverse.dropWhile isSpace).reverse
  match cs with
  | [] => none
  | c :: ds =>
    if c = Char.ofNat 45 then
      if ds = [] then none
      else (parseDigits ds 0).bind fun n =>
        if n ≤ 9223372036854775808 then some (-(n : Int)) else none
    else if c = Char.ofNat 43 then
      if ds = [] then none
      else (parseDigits ds 0).bind fun n =>
        if n < 9223372036854775808 then some (n : Int) else none
    else (parseDigits (c :: ds) 0).bind fun n =>
      if n < 9223372036854775808 then some (n : Int) else none

/-- The function `LocalCollection::version`: `SELECT value FROM metadata WHERE
key='version'`, the first row of the result converted by `toInt( &ok )`, which
reads the text as a 64-bit integer and cuts it to an `int`; `QueryError` when
the table is missing, when no row has the key, or when the value is NULL or
not a number. -/
def version (f : DbFile) : Except QueryError Int :=
  if f.tables.contains "metadata" then
    match f.content.metadata.find? (fun row => decide (row.1 = "version")) with
    | some row =>
      match row.2 with
      | some text =>
        match parseLongLong text with
        | some v => Except.ok (toInt v)
        | none => Except.error { what := "no version" }
      | none => Except.error { what := "no version" }
    | none => Except.error { what := "no version" }
  else Except.error { what := "no such table" }

/-- The function `LocalCollection::versionCheck`; `initDatabase` is the call
of `initDatabase` at its end, which gives no result when the nesting of calls
is deeper than allowed. -/
def versionCheck (initDatabase : DbFile → Option (Except QueryError Unit × DbFile))
    (f : DbFile) : Option (Except QueryError Unit × DbFile) :=
  match version f with
  | Except.error e => some (Except.error e, f)
  | Except.ok v =>
    if v < LOCAL_COLLECTION_SCHEMA_VERSION_INT then
      match dropAll f with
      | (Except.ok _, f1) => initDatabase f1
      | (Except.error e, f1) => some (Except.error e, f1)
    else some (Except.ok (), f)

/-- The function `LocalCollection::initDatabase`, which `versionCheck` calls
again after it has dropped the tables: `fuel` bounds the number of nested
calls of `initDatabase`, and `none` says that the bound was reached. -/
def initDatabase : Nat → DbFile → Option (Except QueryError Unit × DbFile)
  | 0, _ => none
  | fuel + 1, f =>
    if !f.tables.contains "metadata" then
      match createSchema f with
      | (Except.ok _, f1) => versionCheck (initDatabase fuel) f1
      | (Except.error e, f1) => some (Except.error e, f1)
    else versionCheck (initDatabase fuel) f

/-- The file that `initDatabase` leaves when it has created the schema in a
file without tables: the tables of the schema and `sqlite_sequence`. -/
def createdFile : DbFile :=
  { tables := ["files", "sqlite_sequence", "artists", "simartists", "tags", "tracktags",
      "directories", "sources", "startDirs", "exclusions", "metadata"],
    content := createdDatabase }

/-- A database file without tables. -/
def emptyFile : DbFile :=
  { tables := [],
    content :=
      { files := [], artists := [], simartists := [], tags := [], tracktags := [],
        tracktagsColumns := [], directories := [], sources := [], startDirs := [],
        exclusions := [], metadata := [],
        filesSeq := 0, artistsSeq := 0, tagsSeq := 0, directoriesSeq := 0, sourcesSeq := 0 } }

/-- A file of version 2 without a `sqlite_sequence` table (none of its tables
was created with an `AUTOINCREMENT` column), with a table that the present
schema does not have, and with the rows of the example store. -/
def oldFile : DbFile :=
  { tables := ["files", "artists", "directories", "sources", "metadata", "tracks"],
    content := { exampleStore.db with metadata := [("version", some "2")] } }

/-- A file with the tables that `initDatabase` creates, `sqlite_sequence`
among them, whose version row says 2, with the rows of the example store. -/
def version2File : DbFile :=
  { tables := createdFile.tables,
    content := { exampleStore.db with metadata := [("version", some "2")] } }

/-! ## Lemmas on the batch executor -/

theorem toInt_of_range {v : Int} (h0 : -2147483648 ≤ v) (h1 : v < 2147483648) :
    toInt v = v := by
  unfold toInt
  omega

theorem idsOf_append (a b : List Tok) : idsOf (a ++ b) = idsOf a ++ idsOf b := by
  induction a with
  | nil => rfl
  | cons t rest ih =>
    cases t with
    | comma => simpa [idsOf] using ih
    | num v => simp [idsOf, ih]

theorem idsOf_joinIds (l : List Int) : idsOf (joinIds l) = l := by
  induction l with
  | nil => rfl
  | cons v rest ih =>
    cases rest with
    | nil => rfl
    | cons w rest2 => simpa [joinIds, idsOf] using ih

theorem joinIds_concat (l : List Int) (w : Int) (h : l ≠ []) :
    joinIds (l ++ [w]) = joinIds l ++ [Tok.comma, Tok.num w] := by
  induction l with
  | nil => exact absurd rfl h
  | cons v rest ih =>
    cases rest with
    | nil => rfl
    | cons u rest2 =>
      have h2 := ih (by simp)
      show Tok.num v :: Tok.comma :: joinIds ((u :: rest2) ++ [w]) = _
      rw [h2]
      rfl

theorem joinIds_eq_nil {l : List Int} : joinIds l = [] ↔ l = [] := by
  constructor
  · intro h
    have := congrArg idsOf h
    rwa [idsOf_joinIds] at this
  · rintro rfl; rfl

theorem batchLoop_concat {σ : Type} (f : σ → List Tok → σ) (s : σ) (pre : List Int) (v : Int) :
    batchLoop f s (pre ++ [v]) = batchStep f (batchLoop f s pre) v := by
  simp [batchLoop, List.foldl_append]

theorem batchInv_loop (pre : List Int) :
    BatchInv pre (batchLoop (fun calls ids => calls ++ [ids]) [] pre) := by
  induction pre using List.reverseRecOn with
  | nil =>
    exact ⟨rfl, by simp [batchLoop], rfl, rfl, rfl, by simp [batchLoop], rfl⟩
  | append_singleton pre v ih =>
    rw [batchLoop_concat]
    generalize batchLoop (fun calls ids => calls ++ [ids]) [] pre = st at ih
    obtain ⟨hc, hf, hp, hpl, hcl, hcf, hcov⟩ := ih
    -- the id string after appending `v`
    have hids2 : (if st.first then st.ids else st.ids ++ [Tok.comma]) ++ [Tok.num (toInt v)]
        = joinIds (idsOf st.ids ++ [toInt v]) := by
      by_cases h1 : st.first = true
      · have h0 := hf.1 h1
        simp [h1, h0, idsOf, joinIds]
      · have hne : idsOf st.ids ≠ [] := by
          intro h
          apply h1
          apply hf.2
          rw [hp, h]; rfl
        rw [joinIds_concat _ _ hne, ← hp]
        simp [h1]
    have hlen : (pre ++ [v]).length = pre.length + 1 := by simp
    by_cases hm : (st.count + 1) % 100 = 0
    · have hstep : batchStep (fun calls ids => calls ++ [ids]) st v =
          { count := st.count + 1, ids := [], first := true,
            self := st.self ++ [joinIds (idsOf st.ids ++ [toInt v])] } := by
        simp only [batchStep, hm, if_true, hids2]
      rw [hstep]
      have hm2 : (pre.length + 1) % 100 = 0 := hc ▸ hm
      have hfull : (idsOf st.ids ++ [toInt v]).length = 100 := by
        simp only [List.length_append, List.length_singleton, hpl]
        omega
      refine ⟨by simp [hc], by simp, rfl, ?_, ?_, ?_, ?_⟩
      · simp [idsOf, hm2]
      · simp only [List.length_append, List.length_singleton, hcl, hlen]
        omega
      · intro c hcmem
        rcases List.mem_append.1 hcmem with h | h
        · exact hcf c h
        · rw [List.mem_singleton] at h
          subst h
          rw [idsOf_joinIds]
          exact ⟨hfull, rfl⟩
      · simp only [List.map_append, List.map_cons, List.map_nil, List.flatten_append,
          List.flatten_cons, List.flatten_nil, idsOf_joinIds, idsOf, List.append_nil]
        rw [← List.append_assoc, hcov]
    · have hstep : batchStep (fun calls ids => calls ++ [ids]) st v =
          { count := st.count + 1, ids := joinIds (idsOf st.ids ++ [toInt v]), first := false,
            self := st.self } := by
        simp only [batchStep, hm, if_false, hids2]
      rw [hstep]
      have hm2 : (pre.length + 1) % 100 ≠ 0 := hc ▸ hm
      refine ⟨by simp [hc], ?_, ?_, ?_, ?_, hcf, ?_⟩
      · simp [joinIds_eq_nil]
      · simp [idsOf_joinIds]
      · simp only [idsOf_joinIds, List.length_append, List.length_singleton, hpl, hlen]
        omega
      · simp only [hcl, hlen]
        omega
      · simp only [idsOf_joinIds, List.map_append, List.map_cons, List.map_nil]
        rw [← List.append_assoc, hcov]

theorem batchCalls_eq (fileIds : List Int) :
    batchCalls fileIds =
      (batchLoop (fun calls ids => calls ++ [ids]) [] fileIds).self ++
        (if fileIds.length % 100 = 0 then []
          else [joinIds ((fileIds.map toInt).drop (100 * (fileIds.length / 100)))]) := by
  have inv := batchInv_loop fileIds
  unfold batchCalls batch
  generalize batchLoop (fun calls ids => calls ++ [ids]) [] fileIds = st at inv
  obtain ⟨_, hf, hp, hpl, hcl, hcf, hcov⟩ := inv
  have hflat : (st.self.map idsOf).flatten.length = 100 * (fileIds.length / 100) := by
    have hall : ∀ l ∈ st.self.map idsOf, l.length = 100 := by
      intro l hl
      obtain ⟨c, hc, rfl⟩ := List.mem_map.1 hl
      exact (hcf c hc).1
    have hsum : ∀ (ls : List (List Int)), (∀ l ∈ ls, l.length = 100) →
        ls.flatten.length = 100 * ls.length := by
      intro ls
      induction ls with
      | nil => intro _; rfl
      | cons a rest ih =>
        intro h
        simp only [List.flatten_cons, List.length_append, List.length_cons]
        rw [ih (fun l hl => h l (List.mem_cons_of_mem _ hl)), h a (List.mem_cons_self _ _)]
        ring
    rw [hsum _ hall, List.length_map, hcl]
  have hdrop : (fileIds.map toInt).drop (100 * (fileIds.length / 100)) = idsOf st.ids := by
    rw [← hflat]
    conv_lhs => rw [← hcov]
    exact List.drop_left _ _
  by_cases hz : fileIds.length % 100 = 0
  · have hnil : st.ids = [] := by
      have : idsOf st.ids = [] := List.length_eq_zero.1 (hpl.trans hz)
      rw [hp, this]; rfl
    have hfirst : st.first = true := hf.2 hnil
    simp [hz, hfirst]
  · have hne : st.ids ≠ [] := by
      intro h
      apply hz
      rw [← hpl, h]; rfl
    have hfirst : st.first = false := by
      cases hb : st.first with
      | false => rfl
      | true => exact absurd (hf.1 hb) hne
    simp only [hz, hfirst, if_false, hdrop, ← hp]
    rfl

theorem batchCalls_chunks (fileIds : List Int) :
    (batchCalls fileIds).map idsOf =
      ((batchLoop (fun calls ids => calls ++ [ids]) [] fileIds).self.map idsOf) ++
        (if fileIds.length % 100 = 0 then []
          else [(fileIds.map toInt).drop (100 * (fileIds.length / 100))]) := by
  rw [batchCalls_eq]
  split <;> simp [idsOf_joinIds]

theorem batchCalls_flatten (fileIds : List Int) :
    ((batchCalls fileIds).map idsOf).flatten = fileIds.map toInt := by
  have inv := batchInv_loop fileIds
  have hcalls := batchCalls_eq fileIds
  have hchunks := batchCalls_chunks fileIds
  generalize batchLoop (fun calls ids => calls ++ [ids]) [] fileIds = st at inv hcalls hchunks
  obtain ⟨_, hf, hp, hpl, hcl, hcf, hcov⟩ := inv
  rw [hchunks]
  by_cases hz : fileIds.length % 100 = 0
  · have : idsOf st.ids = [] := List.length_eq_zero.1 (hpl.trans hz)
    simpa [hz, this] using hcov
  · have hflat : (st.self.map idsOf).flatten.length = 100 * (fileIds.length / 100) := by
      have h1 := congrArg List.length hcov
      simp only [List.length_append, List.length_map, hpl] at h1
      omega
    have hdrop : (fileIds.map toInt).drop (100 * (fileIds.length / 100)) = idsOf st.ids := by
      rw [← hflat]
      conv_lhs => rw [← hcov]
      exact List.drop_left _ _
    simp only [hz, if_false, List.flatten_append, List.flatten_cons, List.flatten_nil,
      List.append_nil, hdrop]
    exact hcov

theorem batchCalls_wellformed (fileIds : List Int) :
    (batchCalls fileIds).map (fun c => joinIds (idsOf c)) = batchCalls fileIds := by
  have inv := batchInv_loop fileIds
  rw [batchCalls_eq]
  generalize batchLoop (fun calls ids => calls ++ [ids]) [] fileIds = st at inv
  have hself : st.self.map (fun c => joinIds (idsOf c)) = st.self := by
    conv_rhs => rw [← List.map_id st.self]
    apply List.map_congr_left
    intro c hc
    exact (inv.calls_full c hc).2.symm
  split <;> simp [hself, idsOf_joinIds]

theorem batchCalls_sizes (fileIds : List Int) :
    (batchCalls fileIds).map (fun c => (idsOf c).length) =
      List.replicate (fileIds.length / 100) 100 ++
        (if fileIds.length % 100 = 0 then [] else [fileIds.length % 100]) := by
  have inv := batchInv_loop fileIds
  rw [batchCalls_eq]
  generalize batchLoop (fun calls ids => calls ++ [ids]) [] fileIds = st at inv
  have hself : st.self.map (fun c => (idsOf c).length) =
      List.replicate (fileIds.length / 100) 100 := by
    rw [List.eq_replicate_iff]
    refine ⟨by rw [List.length_map, inv.calls_len], ?_⟩
    intro b hb
    obtain ⟨c, hc, rfl⟩ := List.mem_map.1 hb
    exact (inv.calls_full c hc).1
  rw [List.map_append, hself]
  split
  · simp
  · simp only [List.map_cons, List.map_nil, idsOf_joinIds, List.length_drop, List.length_map]
    congr 2
    omega

theorem batch_simulation {σ : Type} (f : σ → List Tok → σ) (s : σ) (pre : List Int) :
    (batchLoop f s pre).count = (batchLoop (fun calls ids => calls ++ [ids]) [] pre).count ∧
    (batchLoop f s pre).ids = (batchLoop (fun calls ids => calls ++ [ids]) [] pre).ids ∧
    (batchLoop f s pre).first = (batchLoop (fun calls ids => calls ++ [ids]) [] pre).first ∧
    (batchLoop f s pre).self =
      (batchLoop (fun calls ids => calls ++ [ids]) [] pre).self.foldl f s := by
  induction pre using List.reverseRecOn with
  | nil => exact ⟨rfl, rfl, rfl, rfl⟩
  | append_singleton pre v ih =>
    rw [batchLoop_concat, batchLoop_concat]
    obtain ⟨h1, h2, h3, h4⟩ := ih
    unfold batchStep
    simp only [h1, h2, h3, h4]
    split <;> simp [List.foldl_append]

theorem batch_eq_foldl_calls {σ : Type} (fileIds : List Int) (f : σ → List Tok → σ) (s : σ) :
    batch fileIds f s = (batchCalls fileIds).foldl f s := by
  obtain ⟨_, h2, h3, h4⟩ := batch_simulation f s fileIds
  unfold batchCalls batch
  simp only [h2, h3, h4]
  split <;> simp [List.foldl_append]

/-! ## Claims on the batch executor -/

/-- C1, refuted at two ids outside the range of `int`: `batch` passes the
chunk operation the ids 2 and -1294967296 for the input 4294967298,
3000000000, because it appends `v.toInt()`. -/
theorem batch_cuts_ids :
    batchCalls [4294967298, 3000000000] =
      [[Tok.num 2, Tok.comma, Tok.num (-1294967296)]] ∧
    ((batchCalls [4294967298, 3000000000]).map idsOf).flatten ≠ [4294967298, 3000000000] := by
  constructor <;> decide

/-- C1 as amended: the id lists that `batch` passes to the chunk operation,
concatenated in invocation order, are the ids of the input cut to `int`, one
per element and in input order, so for ids in the range of `int` they are the
input list: every id is handed over exactly once and in input order; each
argument is the comma separated rendering of its ids; any chunk operation is
run on exactly these arguments in this order; and 250 ids are passed as chunks
of 100, 100 and 50 ids. -/
theorem batch_chunks_concat_eq_input (fileIds : List Int) :
    ((batchCalls fileIds).map idsOf).flatten = fileIds.map toInt ∧
    ((∀ v ∈ fileIds, -2147483648 ≤ v ∧ v < 2147483648) →
      ((batchCalls fileIds).map idsOf).flatten = fileIds) ∧
    (batchCalls fileIds).map (fun c => joinIds (idsOf c)) = batchCalls fileIds ∧
    (∀ (σ : Type) (batchFunc : σ → List Tok → σ) (self : σ),
      batch fileIds batchFunc self = (batchCalls fileIds).foldl batchFunc self) ∧
    (fileIds.length = 250 →
      (batchCalls fileIds).map (fun c => (idsOf c).length) = [100, 100, 50]) := by
  refine ⟨batchCalls_flatten fileIds, ?_, batchCalls_wellformed fileIds,
    fun σ f s => batch_eq_foldl_calls fileIds f s, ?_⟩
  · intro hrange
    rw [batchCalls_flatten]
    conv_rhs => rw [← List.map_id fileIds]
    apply List.map_congr_left
    intro v hv
    exact toInt_of_range (hrange v hv).1 (hrange v hv).2
  · intro h
    rw [batchCalls_sizes, h]
    rfl

/-- C1 as amended, at the ids 0, 1, ..., 249. -/
theorem batch_chunks_concat_eq_input_witness :
    (∀ v ∈ (List.range 250).map Int.ofNat, -2147483648 ≤ v ∧ v < 2147483648) ∧
    ((batchCalls ((List.range 250).map Int.ofNat)).map idsOf).flatten
        = (List.range 250).map Int.ofNat ∧
      (batchCalls ((List.range 250).map Int.ofNat)).map (fun c => (idsOf c).length)
        = [100, 100, 50] := by
  have hrange : ∀ v ∈ (List.range 250).map Int.ofNat, -2147483648 ≤ v ∧ v < 2147483648 := by
    intro v hv
    obtain ⟨n, hn, rfl⟩ := List.mem_map.1 hv
    have := List.mem_range.1 hn
    constructor <;> simp <;> omega
  exact ⟨hrange,
    (batch_chunks_concat_eq_input ((List.range 250).map Int.ofNat)).2.1 hrange,
    (batch_chunks_concat_eq_input ((List.range 250).map Int.ofNat)).2.2.2.2 (by simp)⟩

/-- C2: for n input ids `batch` invokes the chunk operation ceil(n/100)
times; all invocations but the last receive 100 ids and the last receives the
remaining n - 100*(ceil(n/100)-1) ids; every invocation receives between 1
and 100 ids; an empty input causes no invocation. -/
theorem batch_invocations (fileIds : List Int) :
    (batchCalls fileIds).length = (fileIds.length + 99) / 100 ∧
    (batchCalls fileIds).map (fun c => (idsOf c).length) =
      List.replicate ((fileIds.length + 99) / 100 - 1) 100 ++
        (if fileIds.length = 0 then []
          else [fileIds.length - 100 * ((fileIds.length + 99) / 100 - 1)]) ∧
    (batchCalls fileIds).all
      (fun c => decide (1 ≤ (idsOf c).length ∧ (idsOf c).length ≤ 100)) = true ∧
    batchCalls [] = [] := by
  have hsz := batchCalls_sizes fileIds
  have hlen : (batchCalls fileIds).length = (fileIds.length + 99) / 100 := by
    have h := congrArg List.length hsz
    rw [List.length_map] at h
    rw [h]
    split <;> simp <;> omega
  refine ⟨hlen, ?_, ?_, rfl⟩
  · rw [hsz]
    by_cases hz : fileIds.length % 100 = 0
    · by_cases h0 : fileIds.length = 0
      · simp [h0]
      · have hq : fileIds.length / 100 = ((fileIds.length + 99) / 100 - 1) + 1 := by omega
        have hl : fileIds.length - 100 * ((fileIds.length + 99) / 100 - 1) = 100 := by omega
        rw [if_pos hz, if_neg h0, hl, List.append_nil, hq, List.replicate_succ']
    · have h0 : fileIds.length ≠ 0 := by
        intro h; rw [h] at hz; exact hz rfl
      have hq : (fileIds.length + 99) / 100 - 1 = fileIds.length / 100 := by omega
      have hl : fileIds.length - 100 * (fileIds.length / 100) = fileIds.length % 100 := by
        omega
      rw [if_neg hz, if_neg h0, hq, hl]
  · rw [List.all_eq_true]
    intro c hc
    have hmem : (idsOf c).length ∈ (batchCalls fileIds).map (fun c => (idsOf c).length) :=
      List.mem_map.2 ⟨c, hc, rfl⟩
    rw [hsz] at hmem
    rw [decide_eq_true_eq]
    rcases List.mem_append.1 hmem with h | h
    · rw [(List.mem_replicate.1 h).2]
      exact ⟨by decide, by decide⟩
    · split at h
      · simp at h
      · rw [List.mem_singleton] at h
        omega

/-! ## Lemmas on the interner -/

theorem toInt_of_pos {v : Int} (h0 : 0 < v) (h1 : v < 2147483648) : toInt v = v := by
  unfold toInt
  omega

theorem foldl_max_ge_init (seq : Int) (ids : List Int) : seq ≤ ids.foldl max seq := by
  induction ids generalizing seq with
  | nil => exact le_refl _
  | cons x rest ih => exact le_trans (le_max_left _ _) (ih (max seq x))

theorem foldl_max_lt (bound seq : Int) (ids : List Int) (hs : seq < bound)
    (hi : ∀ x ∈ ids, x < bound) : ids.foldl max seq < bound := by
  induction ids generalizing seq with
  | nil => exact hs
  | cons x rest ih =>
    apply ih
    · exact max_lt hs (hi x (List.mem_cons_self _ _))
    · intro y hy
      exact hi y (List.mem_cons_of_mem _ hy)

theorem nextRowId_bounds (db : Database) (h : ArtistsOk db) :
    0 < nextRowId db.artistsSeq (db.artists.map fun a => a.id) ∧
    nextRowId db.artistsSeq (db.artists.map fun a => a.id) < 2147483648 := by
  obtain ⟨hid, ⟨hs0, hs1⟩, _, _⟩ := h
  have hge := foldl_max_ge_init db.artistsSeq (db.artists.map fun a => a.id)
  have hlt := foldl_max_lt 2147483647 db.artistsSeq (db.artists.map fun a => a.id) hs1
    (by
      intro x hx
      obtain ⟨a, ha, rfl⟩ := List.mem_map.1 hx
      exact (hid a ha).2)
  unfold nextRowId
  constructor <;> omega

theorem getArtistId_found (s : Store) (artistName : String) (flag : Creation) (a : ArtistRow)
    (h : s.db.artists.find? (fun a => decide (a.lowercase_name = toLower (simplified artistName)))
      = some a) :
    getArtistId s artistName flag =
      (toInt a.id, s.issue (Stmt.selectArtistId (toLower (simplified artistName)))) := by
  simp only [getArtistId, h]

theorem getArtistId_create_missing (s : Store) (artistName : String)
    (h : s.db.artists.find? (fun a => decide (a.lowercase_name = toLower (simplified artistName)))
      = none) :
    getArtistId s artistName Creation.Create =
      (toInt (nextRowId s.db.artistsSeq (s.db.artists.map fun a => a.id)),
        { db := { s.db with
            artists := s.db.artists ++
              [{ id := nextRowId s.db.artistsSeq (s.db.artists.map fun a => a.id),
                 lowercase_name := toLower (simplified artistName) }],
            artistsSeq := nextRowId s.db.artistsSeq (s.db.artists.map fun a => a.id) },
          trace := s.trace ++ [Stmt.selectArtistId (toLower (simplified artistName)),
            Stmt.insertArtist (toLower (simplified artistName))] }) := by
  simp [getArtistId, h, Store.issue]

theorem getArtistId_nocreate_missing (s : Store) (artistName : String)
    (h : s.db.artists.find? (fun a => decide (a.lowercase_name = toLower (simplified artistName)))
      = none) :
    getArtistId s artistName Creation.NoCreate =
      (0, s.issue (Stmt.selectArtistId (toLower (simplified artistName)))) := by
  simp only [getArtistId, h]

/-- After `getArtistId(name, Create)` the artists table has a first row of the
normalized name whose id, as an `int`, is the returned one. -/
theorem getArtistId_create_row (s : Store) (artistName : String) (hok : ArtistsOk s.db) :
    ∃ a, (getArtistId s artistName Creation.Create).2.db.artists.find?
        (fun a => decide (a.lowercase_name = toLower (simplified artistName))) = some a ∧
      toInt a.id = (getArtistId s artistName Creation.Create).1 ∧
      0 < (getArtistId s artistName Creation.Create).1 ∧
      ((getArtistId s artistName Creation.Create).2.db.artists.map
        fun a => a.lowercase_name).count (toLower (simplified artistName)) = 1 := by
  cases hfind : s.db.artists.find?
      (fun a => decide (a.lowercase_name = toLower (simplified artistName))) with
  | some a =>
    rw [getArtistId_found s artistName _ a hfind]
    have hmem : a ∈ s.db.artists := List.mem_of_find?_eq_some hfind
    have hname : a.lowercase_name = toLower (simplified artistName) := by
      simpa using List.find?_some hfind
    obtain ⟨h0, h1⟩ := hok.1 a hmem
    refine ⟨a, hfind, rfl, ?_, ?_⟩
    · show 0 < toInt a.id
      rw [toInt_of_pos h0 (by omega)]
      exact h0
    · show (s.db.artists.map fun a => a.lowercase_name).count _ = 1
      apply List.count_eq_one_of_mem hok.2.2.2
      exact List.mem_map.2 ⟨a, hmem, hname⟩
  | none =>
    rw [getArtistId_create_missing s artistName hfind]
    obtain ⟨hb0, hb1⟩ := nextRowId_bounds s.db hok
    refine ⟨{ id := nextRowId s.db.artistsSeq (s.db.artists.map fun a => a.id),
              lowercase_name := toLower (simplified artistName) }, ?_, rfl, ?_, ?_⟩
    · simp [List.find?_append, hfind]
    · show 0 < toInt _
      rw [toInt_of_pos hb0 hb1]
      exact hb0
    · have hnot : toLower (simplified artistName) ∉
          s.db.artists.map fun a => a.lowercase_name := by
        intro hm
        obtain ⟨a, ha, hn⟩ := List.mem_map.1 hm
        have := List.find?_eq_none.1 hfind a ha
        simp [hn] at this
      simp [List.count_eq_zero_of_not_mem hnot]

/-! ## Lemmas on the resolver -/

theorem mem_resolveFrom {db : Database} {r : ResolveRow} :
    r ∈ resolveFrom db ↔
      r.f ∈ db.files ∧ r.a ∈ db.artists ∧ r.f.artist = some r.a.id ∧
      r.d ∈ db.directories ∧ r.f.directory = r.d.id ∧
      r.s ∈ db.sources ∧ r.d.source = some r.s.id := by
  obtain ⟨f, a, d, src⟩ := r
  simp only [resolveFrom, List.mem_flatMap, List.mem_filter, List.mem_map, decide_eq_true_eq,
    ResolveRow.mk.injEq]
  constructor
  · rintro ⟨f1, hf, a1, ⟨ha, hfa⟩, d1, ⟨hd, hfd⟩, s1, ⟨hs, hds⟩, rfl, rfl, rfl, rfl⟩
    exact ⟨hf, ha, hfa, hd, hfd, hs, hds⟩
  · rintro ⟨hf, ha, hfa, hd, hfd, hs, hds⟩
    exact ⟨f, hf, a, ⟨ha, hfa⟩, d, ⟨hd, hfd⟩, src, ⟨hs, hds⟩, rfl, rfl, rfl, rfl⟩

theorem resolve_nonempty (levenshtein : String → String → ℚ) (s : Store)
    (artist album title : String) (ha : artist ≠ "") (ht : title ≠ "") :
    resolve levenshtein s artist album title =
      (((resolveFrom s.db).filter
          (resolveWhere levenshtein s.db (toLower (simplified artist))
            (toLower (simplified title)))).map
          (resolveSelect levenshtein (toLower (simplified title))),
        s.issue (Stmt.selectResolve (toLower (simplified artist))
          (toLower (simplified title)))) := by
  simp [resolve, ha, ht]

theorem mem_resolve {levenshtein : String → String → ℚ} {s : Store}
    {artist album title : String} {m : ResolveResult}
    (h : m ∈ (resolve levenshtein s artist album title).1) :
    ∃ r ∈ resolveFrom s.db,
      resolveWhere levenshtein s.db (toLower (simplified artist))
        (toLower (simplified title)) r = true ∧
      m = resolveSelect levenshtein (toLower (simplified title)) r := by
  unfold resolve at h
  split at h
  · simp at h
  · obtain ⟨r, hr, rfl⟩ := List.mem_map.1 h
    obtain ⟨hr1, hr2⟩ := List.mem_filter.1 hr
    exact ⟨r, hr1, hr2, rfl⟩

/-- With distinct artist ids, the subselect `a.id IN (...)` of `resolve` is
the threshold test on the name of the joined artist row. -/
theorem resolveArtistIds_contains (levenshtein : String → String → ℚ) (db : Database)
    (artist : String) (a : ArtistRow) (ha : a ∈ db.artists)
    (hpk : (db.artists.map fun a => a.id).Nodup) :
    (resolveArtistIds levenshtein db artist).contains a.id = true ↔
      levenshtein a.lowercase_name artist > LEVENSHTEIN_ARTIST_THRESHOLD := by
  simp only [resolveArtistIds, List.contains, List.elem_eq_mem, List.mem_map, List.mem_filter,
    decide_eq_true_eq]
  constructor
  · rintro ⟨b, ⟨hb, hlev⟩, hid⟩
    have hinj := List.inj_on_of_nodup_map hpk hb ha hid
    rw [← hinj]
    exact hlev
  · intro hlev
    exact ⟨a, ⟨ha, hlev⟩, rfl⟩

theorem resolveWhere_iff (levenshtein : String → String → ℚ) (db : Database)
    (artist title : String) (r : ResolveRow) (hr : r ∈ resolveFrom db)
    (hpk : (db.artists.map fun a => a.id).Nodup) :
    resolveWhere levenshtein db artist title r = true ↔
      r.s.available = 1 ∧
      levenshtein r.a.lowercase_name artist > LEVENSHTEIN_ARTIST_THRESHOLD ∧
      levenshtein r.f.lowercase_title title > LEVENSHTEIN_TITLE_THRESHOLD := by
  have ha : r.a ∈ db.artists := (mem_resolveFrom.1 hr).2.1
  simp only [resolveWhere, Bool.and_eq_true, decide_eq_true_eq,
    resolveArtistIds_contains levenshtein db artist r.a ha hpk, and_assoc]

/-! ## Claims on the resolver -/

/-- C3: `resolve(artist, album, title)` with an empty artist or an empty
title returns the empty list and issues no query, for every store and every
album: the store, statement trace included, is the one it was called on. -/
theorem resolve_empty_artist_or_title (levenshtein : String → String → ℚ) (s : Store)
    (artist album title : String) (h : artist = "" ∨ title = "") :
    resolve levenshtein s artist album title = ([], s) := by
  simp [resolve, h]

/-- C3 at an empty title on the example store. -/
theorem resolve_empty_artist_or_title_witness :
    ("Queen" = "" ∨ "" = "") ∧
      resolve exactMatch exampleStore "Queen" "A Night at the Opera" "" = ([], exampleStore) :=
  ⟨Or.inr rfl,
    resolve_empty_artist_or_title exactMatch exampleStore "Queen" "A Night at the Opera" ""
      (Or.inr rfl)⟩

/-- C4: every match returned by `resolve` is built from a file row, its
artist row, its directory row and the source row of that directory, and that
source has `available = 1`; the query drops every joined row whose source has
another `available`, whatever its artist name and title are; and when volumes
are unique (`UNIQUE` on `sources.volume`), no match carries the volume of a
source whose `available` is not 1. -/
theorem resolve_only_available_sources (levenshtein : String → String → ℚ) (s : Store)
    (artist album title : String) :
    (∀ m ∈ (resolve levenshtein s artist album title).1,
      ∃ f ∈ s.db.files, ∃ a ∈ s.db.artists, ∃ d ∈ s.db.directories, ∃ src ∈ s.db.sources,
        f.artist = some a.id ∧ f.directory = d.id ∧ d.source = some src.id ∧
        src.available = 1 ∧
        m = resolveSelect levenshtein (toLower (simplified title))
          { f := f, a := a, d := d, s := src }) ∧
    (∀ r ∈ resolveFrom s.db, r.s.available ≠ 1 →
      resolveWhere levenshtein s.db (toLower (simplified artist))
        (toLower (simplified title)) r = false) ∧
    (SourcesOk s.db → ∀ src ∈ s.db.sources, src.available ≠ 1 →
      ∀ m ∈ (resolve levenshtein s artist album title).1, m.volume ≠ src.volume) := by
  have key : ∀ m ∈ (resolve levenshtein s artist album title).1,
      ∃ r ∈ resolveFrom s.db, r.s.available = 1 ∧
        m = resolveSelect levenshtein (toLower (simplified title)) r := by
    intro m hm
    obtain ⟨r, hr, hw, rfl⟩ := mem_resolve hm
    refine ⟨r, hr, ?_, rfl⟩
    simp only [resolveWhere, Bool.and_eq_true, decide_eq_true_eq] at hw
    exact hw.1.1
  refine ⟨?_, ?_, ?_⟩
  · intro m hm
    obtain ⟨r, hr, hav, rfl⟩ := key m hm
    obtain ⟨hf, ha, hfa, hd, hfd, hs, hds⟩ := mem_resolveFrom.1 hr
    exact ⟨r.f, hf, r.a, ha, r.d, hd, r.s, hs, hfa, hfd, hds, hav, rfl⟩
  · intro r _ hun
    simp [resolveWhere, hun]
  · intro hvol src hsrc hun m hm hvoleq
    obtain ⟨r, hr, hav, rfl⟩ := key m hm
    have hs : r.s ∈ s.db.sources := (mem_resolveFrom.1 hr).2.2.2.2.2.1
    have : r.s = src := List.inj_on_of_nodup_map hvol hs hsrc hvoleq
    exact hun (this ▸ hav)

/-- C4 on the example store: the copy of the track on the unavailable volume
is not returned although artist and title are equal to the query; the one
match is the copy on the volume `/`. -/
theorem resolve_only_available_sources_witness :
    SourcesOk exampleStore.db ∧
      (∀ src ∈ exampleStore.db.sources, src.available ≠ 1 →
        ∀ m ∈ (resolve exactMatch exampleStore "Queen" "" "Bohemian Rhapsody").1,
          m.volume ≠ src.volume) ∧
      (resolve exactMatch exampleStore "Queen" "" "Bohemian Rhapsody").1.map
        (fun m => (m.filename, m.path, m.volume)) = [("01.mp3", "/music", "/")] := by
  have h1 : toLower (simplified "Queen") = "queen" := by decide
  have h2 : toLower (simplified "Bohemian Rhapsody") = "bohemian rhapsody" := by decide
  have h3 : resolveFrom exampleStore.db =
      [{ f := exampleFile 1 1 1 "01.mp3" "bohemian rhapsody",
         a := { id := 1, lowercase_name := "queen" },
         d := { id := 1, source := some 1, path := "/music" },
         s := { id := 1, volume := "/", available := 1 } },
       { f := exampleFile 2 2 1 "01.mp3" "bohemian rhapsody",
         a := { id := 1, lowercase_name := "queen" },
         d := { id := 2, source := some 2, path := "/music" },
         s := { id := 2, volume := "/media/usb", available := 0 } }] := by decide
  refine ⟨by decide,
    (resolve_only_available_sources exactMatch exampleStore "Queen" ""
      "Bohemian Rhapsody").2.2 (by decide), ?_⟩
  rw [resolve_nonempty _ _ _ _ _ (by decide) (by decide), h1, h2, h3]
  simp only [List.filter_cons, List.filter_nil]
  norm_num [resolveWhere, resolveArtistIds, resolveSelect, exactMatch, exampleStore,
    createdDatabase, exampleFile, LEVENSHTEIN_ARTIST_THRESHOLD, LEVENSHTEIN_TITLE_THRESHOLD]

/-- C5: for every similarity function, store with distinct artist ids and
non-empty artist and title, the query of `resolve` keeps a joined row exactly
when its source is available, the similarity of its artist name to the
normalized query artist is strictly above 7/10 and the similarity of its
title to the normalized query title is strictly above 7/10; so the match of a
file on an available source is returned if and only if both similarities are
strictly above 7/10, and a similarity equal to 7/10 excludes it. -/
theorem resolve_iff_above_thresholds (levenshtein : String → String → ℚ) (s : Store)
    (artist album title : String) (ha : artist ≠ "") (ht : title ≠ "")
    (hpk : (s.db.artists.map fun a => a.id).Nodup) :
    (resolve levenshtein s artist album title).1 =
      ((resolveFrom s.db).filter fun r =>
        decide (r.s.available = 1 ∧
          levenshtein r.a.lowercase_name (toLower (simplified artist)) > 7 / 10 ∧
          levenshtein r.f.lowercase_title (toLower (simplified title)) > 7 / 10)).map
        (resolveSelect levenshtein (toLower (simplified title))) ∧
    (∀ r ∈ resolveFrom s.db, r.s.available = 1 →
      (resolveSelect levenshtein (toLower (simplified title)) r ∈
          (resolve levenshtein s artist album title).1 ↔
        levenshtein r.a.lowercase_name (toLower (simplified artist)) > 7 / 10 ∧
        levenshtein r.f.lowercase_title (toLower (simplified title)) > 7 / 10)) ∧
    (∀ r ∈ resolveFrom s.db,
      levenshtein r.a.lowercase_name (toLower (simplified artist)) = 7 / 10 ∨
        levenshtein r.f.lowercase_title (toLower (simplified title)) = 7 / 10 →
      resolveSelect levenshtein (toLower (simplified title)) r ∉
        (resolve levenshtein s artist album title).1) := by
  have hiff : ∀ r ∈ resolveFrom s.db,
      (resolveWhere levenshtein s.db (toLower (simplified artist)) (toLower (simplified title)) r
          = true ↔
        r.s.available = 1 ∧
        levenshtein r.a.lowercase_name (toLower (simplified artist)) > 7 / 10 ∧
        levenshtein r.f.lowercase_title (toLower (simplified title)) > 7 / 10) :=
    fun r hr => resolveWhere_iff levenshtein s.db _ _ r hr hpk
  have hmem : ∀ r ∈ resolveFrom s.db,
      (resolveSelect levenshtein (toLower (simplified title)) r ∈
          (resolve levenshtein s artist album title).1 →
        levenshtein r.a.lowercase_name (toLower (simplified artist)) > 7 / 10 ∧
        levenshtein r.f.lowercase_title (toLower (simplified title)) > 7 / 10) := by
    intro r _ hin
    obtain ⟨r2, hr2, hw, heq⟩ := mem_resolve hin
    have h2 := ((hiff r2 hr2).1 hw).2
    have hname : r.a.lowercase_name = r2.a.lowercase_name := congrArg ResolveResult.artist heq
    have htitle : r.f.lowercase_title = r2.f.lowercase_title :=
      congrArg ResolveResult.title heq
    rw [hname, htitle]
    exact h2
  refine ⟨?_, ?_, ?_⟩
  · rw [resolve_nonempty levenshtein s artist album title ha ht]
    show List.map _ _ = List.map _ _
    congr 1
    apply List.filter_congr
    intro r hr
    rw [Bool.eq_iff_iff, hiff r hr, decide_eq_true_eq]
  · intro r hr hav
    constructor
    · exact hmem r hr
    · intro hlev
      rw [resolve_nonempty levenshtein s artist album title ha ht]
      exact List.mem_map.2 ⟨r, List.mem_filter.2 ⟨hr, (hiff r hr).2 ⟨hav, hlev⟩⟩, rfl⟩
  · intro r hr hex hin
    obtain ⟨h1, h2⟩ := hmem r hr hin
    rcases hex with h | h
    · rw [h] at h1; exact lt_irrefl _ h1
    · rw [h] at h2; exact lt_irrefl _ h2

/-- C5 on the example store, for the similarity function that is 7/10 on
every pair of strings: the hypotheses hold and nothing is returned. -/
theorem resolve_iff_above_thresholds_witness :
    ("Queen" ≠ "" ∧ "Bohemian Rhapsody" ≠ "" ∧
      (exampleStore.db.artists.map fun a => a.id).Nodup) ∧
    (resolve (fun _ _ => 7 / 10) exampleStore "Queen" "" "Bohemian Rhapsody").1 = [] := by
  refine ⟨⟨by decide, by decide, by decide⟩, ?_⟩
  rw [(resolve_iff_above_thresholds (fun _ _ => 7 / 10) exampleStore "Queen" ""
    "Bohemian Rhapsody" (by decide) (by decide) (by decide)).1]
  simp

/-! ## Claims on the interner -/

/-- C6: when no artist row has the normalized form of the name as its
`lowercase_name`, `getArtistId(name, NoCreate)` returns 0 and leaves the
database (the artists table and every other table) unchanged. -/
theorem getArtistId_nocreate_unseen (s : Store) (artistName : String)
    (h : ∀ a ∈ s.db.artists, a.lowercase_name ≠ toLower (simplified artistName)) :
    (getArtistId s artistName Creation.NoCreate).1 = 0 ∧
    (getArtistId s artistName Creation.NoCreate).2.db = s.db := by
  have hfind : s.db.artists.find?
      (fun a => decide (a.lowercase_name = toLower (simplified artistName))) = none := by
    rw [List.find?_eq_none]
    intro a ha
    simpa using h a ha
  rw [getArtistId_nocreate_missing s artistName hfind]
  exact ⟨rfl, rfl⟩

/-- C6 on the example store, which has no artist `abba`. -/
theorem getArtistId_nocreate_unseen_witness :
    (∀ a ∈ exampleStore.db.artists, a.lowercase_name ≠ toLower (simplified " ABBA ")) ∧
    (getArtistId exampleStore " ABBA " Creation.NoCreate).1 = 0 ∧
    (getArtistId exampleStore " ABBA " Creation.NoCreate).2.db = exampleStore.db :=
  ⟨by decide, getArtistId_nocreate_unseen exampleStore " ABBA " (by decide)⟩

/-- C7: on a store whose artists table satisfies its constraints,
`getArtistId(name, Create)` returns a positive id; in the store it leaves, and
in every later store whose artists table extends that one, `getArtistId` on a
name with the same normalized form returns the same id, with either flag, and
leaves the database unchanged; the artists table holds exactly one row of
that normalized name. -/
theorem getArtistId_create_idempotent (s later : Store) (artistName name2 : String)
    (flag : Creation) (hok : ArtistsOk s.db)
    (hnorm : toLower (simplified name2) = toLower (simplified artistName))
    (hlater : (getArtistId s artistName Creation.Create).2.db.artists <+: later.db.artists) :
    0 < (getArtistId s artistName Creation.Create).1 ∧
    (getArtistId later name2 flag).1 = (getArtistId s artistName Creation.Create).1 ∧
    (getArtistId later name2 flag).2.db = later.db ∧
    ((getArtistId s artistName Creation.Create).2.db.artists.map
      fun a => a.lowercase_name).count (toLower (simplified artistName)) = 1 := by
  obtain ⟨a, hfind, hid, hpos, hcount⟩ := getArtistId_create_row s artistName hok
  obtain ⟨extra, hextra⟩ := hlater
  have hfind2 : later.db.artists.find?
      (fun a => decide (a.lowercase_name = toLower (simplified name2))) = some a := by
    rw [← hextra, hnorm, List.find?_append, hfind]
    rfl
  rw [getArtistId_found later name2 flag a hfind2]
  exact ⟨hpos, hid, rfl, hcount⟩

/-- C7 on the example store: creating `ABBA` and looking up `abba`. -/
theorem getArtistId_create_idempotent_witness :
    ArtistsOk exampleStore.db ∧
    0 < (getArtistId exampleStore " ABBA " Creation.Create).1 ∧
    (getArtistId (getArtistId exampleStore " ABBA " Creation.Create).2 "abba"
      Creation.NoCreate).1 = (getArtistId exampleStore " ABBA " Creation.Create).1 :=
  ⟨by decide,
    (getArtistId_create_idempotent exampleStore
      (getArtistId exampleStore " ABBA " Creation.Create).2 " ABBA " "abba" Creation.NoCreate
      (by decide) (by decide) (List.prefix_refl _)).1,
    (getArtistId_create_idempotent exampleStore
      (getArtistId exampleStore " ABBA " Creation.Create).2 " ABBA " "abba" Creation.NoCreate
      (by decide) (by decide) (List.prefix_refl _)).2.1⟩

/-! ## Claims on the track tags -/

theorem getArtistId_trace (s : Store) (artistName : String) (flag : Creation) :
    ∃ new, (getArtistId s artistName flag).2.trace = s.trace ++ new ∧
      ∀ q ∈ new, q = Stmt.selectArtistId (toLower (simplified artistName)) ∨
        q = Stmt.insertArtist (toLower (simplified artistName)) := by
  cases hfind : s.db.artists.find?
      (fun a => decide (a.lowercase_name = toLower (simplified artistName))) with
  | some a =>
    rw [getArtistId_found s artistName flag a hfind]
    exact ⟨[Stmt.selectArtistId (toLower (simplified artistName))], rfl, by simp⟩
  | none =>
    cases flag with
    | Create =>
      rw [getArtistId_create_missing s artistName hfind]
      exact ⟨[Stmt.selectArtistId (toLower (simplified artistName)),
        Stmt.insertArtist (toLower (simplified artistName))], rfl, by simp⟩
    | NoCreate =>
      rw [getArtistId_nocreate_missing s artistName hfind]
      exact ⟨[Stmt.selectArtistId (toLower (simplified artistName))], rfl, by simp⟩

theorem getTagId_found (s : Store) (tag : String) (flag : Creation) (t : TagRow)
    (h : s.db.tags.find? (fun t => decide (t.name = toLower (simplified tag))) = some t) :
    getTagId s tag flag = (toInt t.id, s.issue (Stmt.selectTagId (toLower (simplified tag)))) := by
  simp only [getTagId, h]

theorem getTagId_create_missing (s : Store) (tag : String)
    (h : s.db.tags.find? (fun t => decide (t.name = toLower (simplified tag))) = none) :
    getTagId s tag Creation.Create =
      (toInt (nextRowId s.db.tagsSeq (s.db.tags.map fun t => t.id)),
        { db := { s.db with
            tags := s.db.tags ++
              [{ id := nextRowId s.db.tagsSeq (s.db.tags.map fun t => t.id),
                 name := toLower (simplified tag) }],
            tagsSeq := nextRowId s.db.tagsSeq (s.db.tags.map fun t => t.id) },
          trace := s.trace ++ [Stmt.selectTagId (toLower (simplified tag)),
            Stmt.insertTag (toLower (simplified tag))] }) := by
  simp [getTagId, h, Store.issue]

theorem getTagId_nocreate_missing (s : Store) (tag : String)
    (h : s.db.tags.find? (fun t => decide (t.name = toLower (simplified tag))) = none) :
    getTagId s tag Creation.NoCreate =
      (0, s.issue (Stmt.selectTagId (toLower (simplified tag)))) := by
  simp only [getTagId, h]

theorem getTagId_trace (s : Store) (tag : String) (flag : Creation) :
    ∃ new, (getTagId s tag flag).2.trace = s.trace ++ new ∧
      ∀ q ∈ new, q = Stmt.selectTagId (toLower (simplified tag)) ∨
        q = Stmt.insertTag (toLower (simplified tag)) := by
  cases hfind : s.db.tags.find? (fun t => decide (t.name = toLower (simplified tag))) with
  | some t =>
    rw [getTagId_found s tag flag t hfind]
    exact ⟨[Stmt.selectTagId (toLower (simplified tag))], rfl, by simp⟩
  | none =>
    cases flag with
    | Create =>
      rw [getTagId_create_missing s tag hfind]
      exact ⟨[Stmt.selectTagId (toLower (simplified tag)),
        Stmt.insertTag (toLower (simplified tag))], rfl, by simp⟩
    | NoCreate =>
      rw [getTagId_nocreate_missing s tag hfind]
      exact ⟨[Stmt.selectTagId (toLower (simplified tag))], rfl, by simp⟩

theorem insertTrackTag_trace (s : Store) (artistId tagId : Int) (userId : Nat) (weight : Int) :
    (insertTrackTag s artistId tagId userId weight).2.trace =
      s.trace ++ [Stmt.insertTrackTags artistId tagId weight userId] := by
  unfold insertTrackTag
  split <;> rfl

theorem deleteTrackTagsForArtist_trace (s : Store) (artistId : Int) (userId : Nat) :
    (deleteTrackTagsForArtist s artistId userId).2.trace =
      s.trace ++ [Stmt.deleteTrackTags artistId userId] := by
  unfold deleteTrackTagsForArtist
  split <;> rfl

theorem setGlobalTagsLoop_trace (artistId : Int) (globalTags : List WeightedString)
    (s : Store) :
    ∃ new, (setGlobalTagsLoop artistId s globalTags).2.trace = s.trace ++ new ∧
      ∀ q ∈ new, q ≠ Stmt.begin ∧ q ≠ Stmt.commit ∧ q ≠ Stmt.rollback := by
  induction globalTags generalizing s with
  | nil => exact ⟨[], by simp [setGlobalTagsLoop], by simp⟩
  | cons tag rest ih =>
    obtain ⟨n1, h1, hn1⟩ := getTagId_trace s tag.str Creation.Create
    have h2 := insertTrackTag_trace (getTagId s tag.str Creation.Create).2 artistId
      (getTagId s tag.str Creation.Create).1 0 tag.weighting
    have hn1' : ∀ q ∈ n1, q ≠ Stmt.begin ∧ q ≠ Stmt.commit ∧ q ≠ Stmt.rollback := by
      intro q hq
      rcases hn1 q hq with h | h <;> (subst h; simp)
    unfold setGlobalTagsLoop
    simp only [insertGlobalArtistTag]
    generalize hres : insertTrackTag (getTagId s tag.str Creation.Create).2 artistId
      (getTagId s tag.str Creation.Create).1 0 tag.weighting = res at h2
    obtain ⟨e, s2⟩ := res
    simp only at h2
    cases e with
    | error err =>
      refine ⟨n1 ++ [Stmt.insertTrackTags artistId (getTagId s tag.str Creation.Create).1
        tag.weighting 0], ?_, ?_⟩
      · simp [h2, h1]
      · intro q hq
        rcases List.mem_append.1 hq with h | h
        · exact hn1' q h
        · rw [List.mem_singleton] at h; subst h; simp
    | ok u =>
      obtain ⟨n3, h3, hn3⟩ := ih s2
      refine ⟨n1 ++ [Stmt.insertTrackTags artistId (getTagId s tag.str Creation.Create).1
        tag.weighting 0] ++ n3, ?_, ?_⟩
      · simp [h3, h2, h1]
      · intro q hq
        rcases List.mem_append.1 hq with h | h
        · rcases List.mem_append.1 h with h | h
          · exact hn1' q h
          · rw [List.mem_singleton] at h; subst h; simp
        · exact hn3 q h

/-- The statements that `setGlobalTagsForArtist` issues: those of
`getArtistId`, the deletion, then those of the loop. -/
theorem setGlobalTagsForArtist_trace (s : Store) (artist : String)
    (globalTags : List WeightedString) :
    ∃ pre post, (setGlobalTagsForArtist s artist globalTags).2.trace =
        s.trace ++ (pre ++ Stmt.deleteTrackTags (getArtistId s artist Creation.Create).1 0
          :: post) ∧
      (∀ q ∈ pre, q = Stmt.selectArtistId (toLower (simplified artist)) ∨
        q = Stmt.insertArtist (toLower (simplified artist))) ∧
      (∀ q ∈ post, q ≠ Stmt.begin ∧ q ≠ Stmt.commit ∧ q ≠ Stmt.rollback) := by
  obtain ⟨n1, h1, hn1⟩ := getArtistId_trace s artist Creation.Create
  have h2 := deleteTrackTagsForArtist_trace (getArtistId s artist Creation.Create).2
    (getArtistId s artist Creation.Create).1 0
  unfold setGlobalTagsForArtist
  simp only [deleteGlobalTrackTagsForArtist]
  generalize hres : deleteTrackTagsForArtist (getArtistId s artist Creation.Create).2
    (getArtistId s artist Creation.Create).1 0 = res at h2
  obtain ⟨e, s2⟩ := res
  simp only at h2
  cases e with
  | error err =>
    exact ⟨n1, [], by simp [h2, h1], hn1, by simp⟩
  | ok u =>
    obtain ⟨n3, h3, hn3⟩ := setGlobalTagsLoop_trace (getArtistId s artist Creation.Create).1
      globalTags s2
    exact ⟨n1, n3, by simp [h3, h2, h1], hn1, hn3⟩

/-- C8, evaluated on the schema the code creates: after `initDatabase` on an
empty file and `addFile` of a track by Queen, `setGlobalTagsForArtist` with
`rock` and then with `pop` fails with a query error on its `DELETE`, which
names the column `user_id` that the created `tracktags` table does not have;
the artist has the file 1 and the second tag list is not empty, yet no global
tag edge exists afterwards. On the same store with a `user_id` column the two
calls leave exactly the edge of `pop`. -/
theorem setGlobalTagsForArtist_created_schema :
    (getArtistId scannedStore "Queen" Creation.Create).1 = 1 ∧
    filesOfArtist scannedStore.db 1 = [1] ∧
    (setGlobalTagsForArtist
      (setGlobalTagsForArtist scannedStore "Queen" [{ str := "rock", weighting := 80 }]).2
      "Queen" [{ str := "pop", weighting := 60 }]).1
        = Except.error { what := "no such column" } ∧
    globalTagsOfArtist (setGlobalTagsForArtist
      (setGlobalTagsForArtist scannedStore "Queen" [{ str := "rock", weighting := 80 }]).2
      "Queen" [{ str := "pop", weighting := 60 }]).2.db 1 = [] ∧
    globalTagsOfArtist (setGlobalTagsForArtist
      (setGlobalTagsForArtist
        { scannedStore with db := { scannedStore.db with
            tracktagsColumns := ["file", "tag", "weight", "user_id"] } }
        "Queen" [{ str := "rock", weighting := 80 }]).2
      "Queen" [{ str := "pop", weighting := 60 }]).2.db 1
        = [{ file := 1, tag := 2, weight := 60, user_id := some 0 }] := by
  refine ⟨by decide, by decide, rfl, by decide, by decide⟩

/-- C9, refuted on the example store with a `user_id` column: the statements
that `setGlobalTagsForArtist` issues are the artist lookup, the deletion, the
tag lookup and the insertion; there is no `BEGIN` before the deletion and no
`COMMIT` after the insertion. -/
theorem setGlobalTagsForArtist_not_in_transaction :
    issuedBy exampleStoreUserId
      (setGlobalTagsForArtist exampleStoreUserId "Queen" [{ str := "Rock", weighting := 50 }]).2
        = [Stmt.selectArtistId "queen", Stmt.deleteTrackTags 1 0, Stmt.selectTagId "rock",
            Stmt.insertTrackTags 1 1 50 0] ∧
    ¬ InOneTransaction (issuedBy exampleStoreUserId
      (setGlobalTagsForArtist exampleStoreUserId "Queen"
        [{ str := "Rock", weighting := 50 }]).2) := by
  have h : issuedBy exampleStoreUserId
      (setGlobalTagsForArtist exampleStoreUserId "Queen" [{ str := "Rock", weighting := 50 }]).2
        = [Stmt.selectArtistId "queen", Stmt.deleteTrackTags 1 0, Stmt.selectTagId "rock",
            Stmt.insertTrackTags 1 1 50 0] := by decide
  refine ⟨h, ?_⟩
  rw [h]
  rintro ⟨pre, mid, post, heq, -, -⟩
  have hmem : Stmt.begin ∈ [Stmt.selectArtistId "queen", Stmt.deleteTrackTags 1 0,
      Stmt.selectTagId "rock", Stmt.insertTrackTags 1 1 50 0] := by
    rw [heq]
    simp
  revert hmem
  decide

/-- C9 as amended: `setGlobalTagsForArtist` issues no `BEGIN`, `COMMIT` or
`ROLLBACK` of its own, and in the statements it issues the deletion of the
artist's global tags comes before every statement that writes `tracktags`. -/
theorem setGlobalTagsForArtist_delete_first_no_transaction (s : Store) (artist : String)
    (globalTags : List WeightedString) :
    (∀ q ∈ issuedBy s (setGlobalTagsForArtist s artist globalTags).2,
      q ≠ Stmt.begin ∧ q ≠ Stmt.commit ∧ q ≠ Stmt.rollback) ∧
    (∃ pre post, issuedBy s (setGlobalTagsForArtist s artist globalTags).2 =
        pre ++ Stmt.deleteTrackTags (getArtistId s artist Creation.Create).1 0 :: post ∧
      ∀ q ∈ pre, q.writesTrackTags = false) := by
  obtain ⟨pre, post, htrace, hpre, hpost⟩ := setGlobalTagsForArtist_trace s artist globalTags
  have hissued : issuedBy s (setGlobalTagsForArtist s artist globalTags).2 =
      pre ++ Stmt.deleteTrackTags (getArtistId s artist Creation.Create).1 0 :: post := by
    unfold issuedBy
    rw [htrace, List.drop_left]
  rw [hissued]
  constructor
  · intro q hq
    rcases List.mem_append.1 hq with h | h
    · rcases hpre q h with h2 | h2 <;> (subst h2; simp)
    · rcases List.mem_cons.1 h with h2 | h2
      · subst h2; simp
      · exact hpost q h2
  · refine ⟨pre, post, rfl, ?_⟩
    intro q hq
    rcases hpre q hq with h2 | h2 <;> (subst h2; rfl)

/-- C9 as amended, on the example store. -/
theorem setGlobalTagsForArtist_delete_first_no_transaction_witness :
    ∀ q ∈ issuedBy exampleStoreUserId
        (setGlobalTagsForArtist exampleStoreUserId "Queen"
          [{ str := "Rock", weighting := 50 }]).2,
      q ≠ Stmt.begin ∧ q ≠ Stmt.commit ∧ q ≠ Stmt.rollback :=
  (setGlobalTagsForArtist_delete_first_no_transaction exampleStoreUserId "Queen"
    [{ str := "Rock", weighting := 50 }]).1

/-- C10: `deleteTrackTagsForArtist(artistId, userId)` removes exactly the tag
edges whose user id is `userId` and whose file is a file of the artist, keeps
the other edges in their order and leaves every other table unchanged: an
edge of another user id (for `userId = 0` every personal tag, for another
`userId` every global tag and every tag of another user) and an edge on a
file of another artist survive. This holds for every artist id. -/
theorem deleteTrackTagsForArtist_scope (s : Store) (artistId : Int) (userId : Nat)
    (hok : TrackTagsOk s.db) :
    (deleteTrackTagsForArtist s artistId userId).2.db.tracktags =
      s.db.tracktags.filter (fun t =>
        !(decide (t.user_id = some (userId : Int)) &&
          (filesOfArtist s.db artistId).contains t.file)) ∧
    (deleteTrackTagsForArtist s artistId userId).2.db =
      { s.db with tracktags := (deleteTrackTagsForArtist s artistId userId).2.db.tracktags } ∧
    (∀ t ∈ s.db.tracktags, t.user_id ≠ some (userId : Int) →
      t ∈ (deleteTrackTagsForArtist s artistId userId).2.db.tracktags) ∧
    (∀ t ∈ s.db.tracktags, t.file ∉ filesOfArtist s.db artistId →
      t ∈ (deleteTrackTagsForArtist s artistId userId).2.db.tracktags) ∧
    (∀ t ∈ (deleteTrackTagsForArtist s artistId userId).2.db.tracktags,
      ¬ (t.user_id = some (userId : Int) ∧ t.file ∈ filesOfArtist s.db artistId)) := by
  have hfilter : (deleteTrackTagsForArtist s artistId userId).2.db.tracktags =
      s.db.tracktags.filter (fun t =>
        !(decide (t.user_id = some (userId : Int)) &&
          (filesOfArtist s.db artistId).contains t.file)) := by
    unfold deleteTrackTagsForArtist
    split
    · rfl
    · rename_i e hprep
      have hcols : ¬ hasColumns s.db.tracktagsColumns ["user_id", "file"] = true := by
        intro hc
        simp [prepareColumns, hc] at hprep
      have hno : s.db.tracktagsColumns.contains "user_id" = false := by
        have h3 := hok.1
        simp only [hasColumns, List.all_cons, List.all_nil, Bool.and_true,
          Bool.and_eq_true] at h3 hcols
        cases hc : s.db.tracktagsColumns.contains "user_id" with
        | false => rfl
        | true => exact absurd ⟨hc, h3.1⟩ hcols
      symm
      show List.filter _ s.db.tracktags = s.db.tracktags
      rw [List.filter_eq_self]
      intro t ht
      simp [hok.2 hno t ht]
  have hdb : (deleteTrackTagsForArtist s artistId userId).2.db =
      { s.db with
        tracktags := (deleteTrackTagsForArtist s artistId userId).2.db.tracktags } := by
    unfold deleteTrackTagsForArtist
    split <;> rfl
  refine ⟨hfilter, hdb, ?_, ?_, ?_⟩
  · intro t ht hne
    rw [hfilter]
    exact List.mem_filter.2 ⟨ht, by simp [hne]⟩
  · intro t ht hnf
    rw [hfilter]
    exact List.mem_filter.2 ⟨ht, by simp [hnf]⟩
  · intro t ht
    rw [hfilter] at ht
    have hkeep := (List.mem_filter.1 ht).2
    rintro ⟨h1, h2⟩
    simp [h1, h2] at hkeep

/-- C10 on the example store with a `user_id` column: deleting the global
tags of Queen keeps the personal tag of user 7. -/
theorem deleteTrackTagsForArtist_scope_witness :
    TrackTagsOk exampleStoreUserId.db ∧
    (deleteTrackTagsForArtist exampleStoreUserId 1 0).2.db.tracktags =
      exampleStoreUserId.db.tracktags.filter (fun t =>
        !(decide (t.user_id = some ((0 : Nat) : Int)) &&
          (filesOfArtist exampleStoreUserId.db 1).contains t.file)) ∧
    (deleteTrackTagsForArtist exampleStoreUserId 1 0).2.db.tracktags =
      [{ file := 1, tag := 2, weight := 100, user_id := some 7 }] :=
  ⟨by decide, (deleteTrackTagsForArtist_scope exampleStoreUserId 1 0 (by decide)).1,
    by decide⟩

/-! ## Replacement of the global tags on a table with a `user_id` column -/

theorem getTagId_frame (s : Store) (tag : String) (flag : Creation) :
    (getTagId s tag flag).2.db.files = s.db.files ∧
    (getTagId s tag flag).2.db.artists = s.db.artists ∧
    (getTagId s tag flag).2.db.tracktags = s.db.tracktags ∧
    (getTagId s tag flag).2.db.tracktagsColumns = s.db.tracktagsColumns ∧
    s.db.tags <+: (getTagId s tag flag).2.db.tags := by
  cases hfind : s.db.tags.find? (fun t => decide (t.name = toLower (simplified tag))) with
  | some t =>
    rw [getTagId_found s tag flag t hfind]
    exact ⟨rfl, rfl, rfl, rfl, List.prefix_refl _⟩
  | none =>
    cases flag with
    | Create =>
      rw [getTagId_create_missing s tag hfind]
      exact ⟨rfl, rfl, rfl, rfl, List.prefix_append _ _⟩
    | NoCreate =>
      rw [getTagId_nocreate_missing s tag hfind]
      exact ⟨rfl, rfl, rfl, rfl, List.prefix_refl _⟩

/-- The id that `getTagId(tag, Create)` returns is the id every later lookup
of the tag returns, in every store whose tags table extends the one it
leaves. -/
theorem getTagId_create_stable (s later : Store) (tag : String)
    (hlater : (getTagId s tag Creation.Create).2.db.tags <+: later.db.tags) :
    (getTagId later tag Creation.NoCreate).1 = (getTagId s tag Creation.Create).1 := by
  have hrow : ∃ t, (getTagId s tag Creation.Create).2.db.tags.find?
      (fun t => decide (t.name = toLower (simplified tag))) = some t ∧
      toInt t.id = (getTagId s tag Creation.Create).1 := by
    cases hfind : s.db.tags.find? (fun t => decide (t.name = toLower (simplified tag))) with
    | some t =>
      rw [getTagId_found s tag _ t hfind]
      exact ⟨t, hfind, rfl⟩
    | none =>
      rw [getTagId_create_missing s tag hfind]
      exact ⟨{ id := nextRowId s.db.tagsSeq (s.db.tags.map fun t => t.id),
               name := toLower (simplified tag) }, by simp [List.find?_append, hfind], rfl⟩
  obtain ⟨t, hfind, hid⟩ := hrow
  obtain ⟨extra, hextra⟩ := hlater
  have hfind2 : later.db.tags.find?
      (fun t => decide (t.name = toLower (simplified tag))) = some t := by
    rw [← hextra, List.find?_append, hfind]
    rfl
  rw [getTagId_found later tag _ t hfind2]
  exact hid

theorem insertTrackTag_ok (s : Store) (artistId tagId : Int) (userId : Nat) (weight : Int)
    (hcols : hasColumns s.db.tracktagsColumns ["file", "tag", "weight", "user_id"] = true) :
    insertTrackTag s artistId tagId userId weight =
      (Except.ok (),
        { db := { s.db with
            tracktags := s.db.tracktags ++
              (filesOfArtist s.db artistId).map fun fileId =>
                { file := fileId, tag := tagId, weight := weight,
                  user_id := some (userId : Int) } },
          trace := s.trace ++ [Stmt.insertTrackTags artistId tagId weight userId] }) := by
  simp only [insertTrackTag, prepareColumns, hcols, if_true, Store.issue]

theorem deleteTrackTagsForArtist_ok (s : Store) (artistId : Int) (userId : Nat)
    (hcols : hasColumns s.db.tracktagsColumns ["file", "tag", "weight", "user_id"] = true) :
    deleteTrackTagsForArtist s artistId userId =
      (Except.ok (),
        { db := { s.db with
            tracktags := s.db.tracktags.filter fun t =>
              !(decide (t.user_id = some (userId : Int)) &&
                (filesOfArtist s.db artistId).contains t.file) },
          trace := s.trace ++ [Stmt.deleteTrackTags artistId userId] }) := by
  have h2 : hasColumns s.db.tracktagsColumns ["user_id", "file"] = true := by
    simp only [hasColumns, List.all_cons, List.all_nil, Bool.and_true, Bool.and_eq_true]
      at hcols ⊢
    exact ⟨hcols.2.2.2, hcols.1⟩
  simp only [deleteTrackTagsForArtist, prepareColumns, h2, if_true, Store.issue]

/-- On a table with a `user_id` column the loop of `setGlobalTagsForArtist`
appends one edge per tag of the list and file of the artist, in this order,
with the id the tag has in the store the loop leaves and the weighting of the
tag. -/
theorem setGlobalTagsLoop_ok (artistId : Int) (globalTags : List WeightedString) (s : Store)
    (hcols : hasColumns s.db.tracktagsColumns ["file", "tag", "weight", "user_id"] = true) :
    (setGlobalTagsLoop artistId s globalTags).2.db.files = s.db.files ∧
    (setGlobalTagsLoop artistId s globalTags).2.db.artists = s.db.artists ∧
    (setGlobalTagsLoop artistId s globalTags).2.db.tracktagsColumns = s.db.tracktagsColumns ∧
    s.db.tags <+: (setGlobalTagsLoop artistId s globalTags).2.db.tags ∧
    (setGlobalTagsLoop artistId s globalTags).2.db.tracktags =
      s.db.tracktags ++ globalTags.flatMap fun tag =>
        (filesOfArtist s.db artistId).map fun fileId =>
          { file := fileId,
            tag := (getTagId (setGlobalTagsLoop artistId s globalTags).2 tag.str
              Creation.NoCreate).1,
            weight := tag.weighting, user_id := some 0 } := by
  induction globalTags generalizing s with
  | nil =>
    exact ⟨rfl, rfl, rfl, List.prefix_refl _, by simp [setGlobalTagsLoop]⟩
  | cons tag rest ih =>
    obtain ⟨hf1, ha1, ht1, hc1, hp1⟩ := getTagId_frame s tag.str Creation.Create
    have hcols1 : hasColumns (getTagId s tag.str Creation.Create).2.db.tracktagsColumns
        ["file", "tag", "weight", "user_id"] = true := by rw [hc1]; exact hcols
    have hins := insertTrackTag_ok (getTagId s tag.str Creation.Create).2 artistId
      (getTagId s tag.str Creation.Create).1 0 tag.weighting hcols1
    have hloop : setGlobalTagsLoop artistId s (tag :: rest) =
        setGlobalTagsLoop artistId
          (insertTrackTag (getTagId s tag.str Creation.Create).2 artistId
            (getTagId s tag.str Creation.Create).1 0 tag.weighting).2 rest := by
      conv_lhs => unfold setGlobalTagsLoop
      simp only [insertGlobalArtistTag, hins]
    rw [hloop]
    generalize hs2 : (insertTrackTag (getTagId s tag.str Creation.Create).2 artistId
      (getTagId s tag.str Creation.Create).1 0 tag.weighting).2 = s2
    have e_files : s2.db.files = s.db.files := by rw [← hs2, hins]; exact hf1
    have e_artists : s2.db.artists = s.db.artists := by rw [← hs2, hins]; exact ha1
    have e_cols : s2.db.tracktagsColumns = s.db.tracktagsColumns := by
      rw [← hs2, hins]; exact hc1
    have e_tags : s2.db.tags = (getTagId s tag.str Creation.Create).2.db.tags := by
      rw [← hs2, hins]
    have e_foa : filesOfArtist s2.db artistId = filesOfArtist s.db artistId := by
      unfold filesOfArtist; rw [e_files]
    have e_foa1 : filesOfArtist (getTagId s tag.str Creation.Create).2.db artistId =
        filesOfArtist s.db artistId := by
      unfold filesOfArtist; rw [hf1]
    have e_tt : s2.db.tracktags = s.db.tracktags ++
        (filesOfArtist s.db artistId).map fun fileId =>
          { file := fileId, tag := (getTagId s tag.str Creation.Create).1,
            weight := tag.weighting, user_id := some 0 } := by
      rw [← hs2, hins]
      show (getTagId s tag.str Creation.Create).2.db.tracktags ++ _ = _
      rw [ht1, e_foa1]
      rfl
    obtain ⟨ihf, iha, ihc, ihp, iht⟩ := ih s2 (by rw [e_cols]; exact hcols)
    have hstable : (getTagId (setGlobalTagsLoop artistId s2 rest).2 tag.str
        Creation.NoCreate).1 = (getTagId s tag.str Creation.Create).1 :=
      getTagId_create_stable s _ tag.str (e_tags ▸ ihp)
    refine ⟨ihf.trans e_files, iha.trans e_artists, ihc.trans e_cols,
      hp1.trans (e_tags ▸ ihp), ?_⟩
    rw [iht, e_tt, e_foa, List.flatMap_cons, hstable, List.append_assoc]

theorem getArtistId_frame (s : Store) (artistName : String) (flag : Creation) :
    (getArtistId s artistName flag).2.db.files = s.db.files ∧
    (getArtistId s artistName flag).2.db.tags = s.db.tags ∧
    (getArtistId s artistName flag).2.db.tracktags = s.db.tracktags ∧
    (getArtistId s artistName flag).2.db.tracktagsColumns = s.db.tracktagsColumns := by
  cases hfind : s.db.artists.find?
      (fun a => decide (a.lowercase_name = toLower (simplified artistName))) with
  | some a =>
    rw [getArtistId_found s artistName flag a hfind]
    exact ⟨rfl, rfl, rfl, rfl⟩
  | none =>
    cases flag with
    | Create =>
      rw [getArtistId_create_missing s artistName hfind]
      exact ⟨rfl, rfl, rfl, rfl⟩
    | NoCreate =>
      rw [getArtistId_nocreate_missing s artistName hfind]
      exact ⟨rfl, rfl, rfl, rfl⟩

theorem getArtistId_create_stable (s later : Store) (artistName : String) (flag : Creation)
    (hlater : (getArtistId s artistName Creation.Create).2.db.artists <+: later.db.artists) :
    (getArtistId later artistName flag).1 = (getArtistId s artistName Creation.Create).1 := by
  have hrow : ∃ a, (getArtistId s artistName Creation.Create).2.db.artists.find?
      (fun a => decide (a.lowercase_name = toLower (simplified artistName))) = some a ∧
      toInt a.id = (getArtistId s artistName Creation.Create).1 := by
    cases hfind : s.db.artists.find?
        (fun a => decide (a.lowercase_name = toLower (simplified artistName))) with
    | some a =>
      rw [getArtistId_found s artistName _ a hfind]
      exact ⟨a, hfind, rfl⟩
    | none =>
      rw [getArtistId_create_missing s artistName hfind]
      exact ⟨{ id := nextRowId s.db.artistsSeq (s.db.artists.map fun a => a.id),
               lowercase_name := toLower (simplified artistName) },
        by simp [List.find?_append, hfind], rfl⟩
  obtain ⟨a, hfind, hid⟩ := hrow
  obtain ⟨extra, hextra⟩ := hlater
  have hfind2 : later.db.artists.find?
      (fun a => decide (a.lowercase_name = toLower (simplified artistName))) = some a := by
    rw [← hextra, List.find?_append, hfind]
    rfl
  rw [getArtistId_found later artistName _ a hfind2]
  exact hid

/-- On a table with a `user_id` column `setGlobalTagsForArtist` leaves the
old edges without the global ones of the artist, followed by one edge per tag
of the list and file of the artist. -/
theorem setGlobalTagsForArtist_ok (s : Store) (artist : String)
    (globalTags : List WeightedString)
    (hcols : hasColumns s.db.tracktagsColumns ["file", "tag", "weight", "user_id"] = true) :
    (setGlobalTagsForArtist s artist globalTags).2.db.files = s.db.files ∧
    (setGlobalTagsForArtist s artist globalTags).2.db.tracktagsColumns
      = s.db.tracktagsColumns ∧
    (setGlobalTagsForArtist s artist globalTags).2.db.artists
      = (getArtistId s artist Creation.Create).2.db.artists ∧
    (setGlobalTagsForArtist s artist globalTags).2.db.tracktags =
      s.db.tracktags.filter (fun t =>
          !(decide (t.user_id = some 0) &&
            (filesOfArtist s.db (getArtistId s artist Creation.Create).1).contains t.file)) ++
        globalTags.flatMap fun tag =>
          (filesOfArtist s.db (getArtistId s artist Creation.Create).1).map fun fileId =>
            { file := fileId,
              tag := (getTagId (setGlobalTagsForArtist s artist globalTags).2 tag.str
                Creation.NoCreate).1,
              weight := tag.weighting, user_id := some 0 } := by
  obtain ⟨hf1, hg1, ht1, hc1⟩ := getArtistId_frame s artist Creation.Create
  have hcols1 : hasColumns (getArtistId s artist Creation.Create).2.db.tracktagsColumns
      ["file", "tag", "weight", "user_id"] = true := by rw [hc1]; exact hcols
  have hdel := deleteTrackTagsForArtist_ok (getArtistId s artist Creation.Create).2
    (getArtistId s artist Creation.Create).1 0 hcols1
  have hset : setGlobalTagsForArtist s artist globalTags =
      setGlobalTagsLoop (getArtistId s artist Creation.Create).1
        (deleteTrackTagsForArtist (getArtistId s artist Creation.Create).2
          (getArtistId s artist Creation.Create).1 0).2 globalTags := by
    conv_lhs => unfold setGlobalTagsForArtist
    simp only [deleteGlobalTrackTagsForArtist, hdel]
  rw [hset]
  generalize hs2 : (deleteTrackTagsForArtist (getArtistId s artist Creation.Create).2
    (getArtistId s artist Creation.Create).1 0).2 = s2
  have e_files : s2.db.files = s.db.files := by rw [← hs2, hdel]; exact hf1
  have e_cols : s2.db.tracktagsColumns = s.db.tracktagsColumns := by
    rw [← hs2, hdel]; exact hc1
  have e_artists : s2.db.artists = (getArtistId s artist Creation.Create).2.db.artists := by
    rw [← hs2, hdel]
  have e_foa : filesOfArtist s2.db (getArtistId s artist Creation.Create).1 =
      filesOfArtist s.db (getArtistId s artist Creation.Create).1 := by
    unfold filesOfArtist; rw [e_files]
  have e_foa1 : filesOfArtist (getArtistId s artist Creation.Create).2.db
      (getArtistId s artist Creation.Create).1 =
      filesOfArtist s.db (getArtistId s artist Creation.Create).1 := by
    unfold filesOfArtist; rw [hf1]
  have e_tt : s2.db.tracktags = s.db.tracktags.filter (fun t =>
      !(decide (t.user_id = some 0) &&
        (filesOfArtist s.db (getArtistId s artist Creation.Create).1).contains t.file)) := by
    rw [← hs2, hdel]
    show List.filter _ (getArtistId s artist Creation.Create).2.db.tracktags = _
    rw [ht1, e_foa1]
    rfl
  obtain ⟨lf, la, lc, _, lt⟩ := setGlobalTagsLoop_ok (getArtistId s artist Creation.Create).1
    globalTags s2 (by rw [e_cols]; exact hcols)
  refine ⟨lf.trans e_files, lc.trans e_cols, la.trans e_artists, ?_⟩
  rw [lt, e_tt, e_foa]

/-- Replacement of the global tags on a store whose `tracktags` table has the
`user_id` column that the statements name: after
`setGlobalTagsForArtist(artist, T1)` and `setGlobalTagsForArtist(artist, T2)`
the global tag edges on the files of the artist are exactly one edge per tag
of `T2` and file of the artist, with the id of the tag and the weighting it
has in `T2`; no edge of the first call remains. -/
theorem setGlobalTagsForArtist_twice (s : Store) (artist : String)
    (T1 T2 : List WeightedString)
    (hcols : hasColumns s.db.tracktagsColumns ["file", "tag", "weight", "user_id"] = true) :
    globalTagsOfArtist
        (setGlobalTagsForArtist (setGlobalTagsForArtist s artist T1).2 artist T2).2.db
        (getArtistId s artist Creation.Create).1 =
      T2.flatMap fun tag =>
        (filesOfArtist s.db (getArtistId s artist Creation.Create).1).map fun fileId =>
          { file := fileId,
            tag := (getTagId
              (setGlobalTagsForArtist (setGlobalTagsForArtist s artist T1).2 artist T2).2
              tag.str Creation.NoCreate).1,
            weight := tag.weighting, user_id := some 0 } := by
  obtain ⟨f1, c1, a1, _⟩ := setGlobalTagsForArtist_ok s artist T1 hcols
  generalize hs1 : (setGlobalTagsForArtist s artist T1).2 = s1 at f1 c1 a1
  have hid : (getArtistId s1 artist Creation.Create).1 =
      (getArtistId s artist Creation.Create).1 :=
    getArtistId_create_stable s s1 artist Creation.Create (a1 ▸ List.prefix_refl _)
  obtain ⟨f2, _, _, t2⟩ := setGlobalTagsForArtist_ok s1 artist T2 (by rw [c1]; exact hcols)
  have e_foa1 : filesOfArtist s1.db (getArtistId s artist Creation.Create).1 =
      filesOfArtist s.db (getArtistId s artist Creation.Create).1 := by
    unfold filesOfArtist; rw [f1]
  rw [hid, e_foa1] at t2
  generalize (setGlobalTagsForArtist s1 artist T2).2 = s2 at f2 t2
  have e_foa2 : filesOfArtist s2.db (getArtistId s artist Creation.Create).1 =
      filesOfArtist s.db (getArtistId s artist Creation.Create).1 := by
    unfold filesOfArtist; rw [f2, f1]
  unfold globalTagsOfArtist
  rw [e_foa2, t2, List.filter_append, List.filter_filter]
  have hnone : s1.db.tracktags.filter (fun t =>
      (decide (t.user_id = some 0) &&
          (filesOfArtist s.db (getArtistId s artist Creation.Create).1).contains t.file) &&
        !(decide (t.user_id = some 0) &&
          (filesOfArtist s.db (getArtistId s artist Creation.Create).1).contains t.file))
      = [] := by
    rw [List.filter_eq_nil_iff]
    intro t _
    simp
  rw [hnone, List.nil_append, List.filter_eq_self]
  intro t ht
  obtain ⟨tag, _, htag⟩ := List.mem_flatMap.1 ht
  obtain ⟨fileId, hfile, rfl⟩ := List.mem_map.1 htag
  simpa using hfile

/-! ## Claims on the removal of files -/

theorem removeFilesLoop_eq (ids : List Int) :
    ids.foldl removeFilesStep (true, []) = (decide (ids = []), joinIds ids) := by
  induction ids using List.reverseRecOn with
  | nil => rfl
  | append_singleton pre v ih =>
    rw [List.foldl_append, ih]
    by_cases hpre : pre = []
    · subst hpre; rfl
    · simp only [List.foldl_cons, List.foldl_nil, removeFilesStep, hpre, decide_False,
        Bool.false_eq_true, if_false]
      rw [joinIds_concat pre v hpre]
      simp

theorem idsOf_removeFilesIds (ids : List Int) : idsOf (removeFilesIds ids) = ids := by
  unfold removeFilesIds
  rw [removeFilesLoop_eq, idsOf_joinIds]

theorem prepareColumns_file (db : Database) (hok : TrackTagsOk db) :
    prepareColumns db.tracktagsColumns ["file"] = Except.ok () := by
  have h3 := hok.1
  simp only [hasColumns, List.all_cons, List.all_nil, Bool.and_true, Bool.and_eq_true] at h3
  have hfile : hasColumns db.tracktagsColumns ["file"] = true := by
    simp only [hasColumns, List.all_cons, List.all_nil, Bool.and_true]
    exact h3.1
  simp only [prepareColumns, hfile, if_true]

/-- C11: `removeFiles(ids)` succeeds on a store whose `tracktags` table has its
declared columns; it removes exactly the file rows whose id is in `ids` and
exactly the tag edges whose file is in `ids`, keeps the other rows in their
order and leaves every other table unchanged; the id string of its two
statements lists `ids`; for the empty list it issues no statement and returns
the store it was called on. -/
theorem removeFiles_exact (s : Store) (ids : List Int) (hok : TrackTagsOk s.db) :
    (removeFiles s ids).1 = Except.ok () ∧
    (removeFiles s ids).2.db.files = s.db.files.filter (fun f => !ids.contains f.id) ∧
    (removeFiles s ids).2.db.tracktags =
      s.db.tracktags.filter (fun t => !ids.contains t.file) ∧
    (removeFiles s ids).2.db =
      { s.db with files := (removeFiles s ids).2.db.files,
                  tracktags := (removeFiles s ids).2.db.tracktags } ∧
    (ids ≠ [] → (removeFiles s ids).2.trace =
      s.trace ++ [Stmt.deleteFilesIn (joinIds ids), Stmt.deleteTrackTagsIn (joinIds ids)]) ∧
    removeFiles s [] = (Except.ok (), s) := by
  have hprep := prepareColumns_file s.db hok
  by_cases hne : ids = []
  · subst hne
    simp [removeFiles]
  · have hstr : removeFilesIds ids = joinIds ids := by
      unfold removeFilesIds; rw [removeFilesLoop_eq]
    have hrun : removeFiles s ids =
        (Except.ok (),
          { db := { s.db with
              files := s.db.files.filter (fun f => !ids.contains f.id),
              tracktags := s.db.tracktags.filter (fun t => !ids.contains t.file) },
            trace := s.trace ++ [Stmt.deleteFilesIn (joinIds ids),
              Stmt.deleteTrackTagsIn (joinIds ids)] }) := by
      simp only [removeFiles, hne, ne_eq, not_false_eq_true, if_true, Store.issue, hprep,
        hstr, idsOf_joinIds, List.append_assoc, List.singleton_append]
    rw [hrun]
    exact ⟨rfl, rfl, rfl, rfl, fun _ => rfl, by simp [removeFiles]⟩

/-- C11 on the example store with tag edges: removing the files 1 and 5. -/
theorem removeFiles_exact_witness :
    TrackTagsOk exampleStoreUserId.db ∧
    (removeFiles exampleStoreUserId [1, 5]).2.db.files =
      exampleStoreUserId.db.files.filter (fun f => !(List.contains [1, 5] f.id)) ∧
    (removeFiles exampleStoreUserId [1, 5]).2.db.files.map (fun f => f.id) = [2] ∧
    (removeFiles exampleStoreUserId [1, 5]).2.db.tracktags = [] :=
  ⟨by decide, (removeFiles_exact exampleStoreUserId [1, 5] (by decide)).2.1, by decide,
    by decide⟩

/-! ## Claims on the match quality -/

/-- C18: every match that `resolve` returns reports the artist match quality
1, for every similarity function, store and query: the similarity of the
artist names is used in the `WHERE` clause only. -/
theorem resolve_artist_quality_one (levenshtein : String → String → ℚ) (s : Store)
    (artist album title : String) :
    ∀ m ∈ (resolve levenshtein s artist album title).1, m.artistMatchQuality = 1 := by
  intro m hm
  obtain ⟨r, _, _, rfl⟩ := mem_resolve hm
  rfl

/-- C18 on the example store, for the similarity function that is 4/5 on
every pair of strings: one match is returned, and its artist match quality is
1 while its title match quality is 4/5. -/
theorem resolve_artist_quality_one_witness :
    (∀ m ∈ (resolve (fun _ _ => 4 / 5) exampleStore "Qeen" "" "Bohemian Rhapsody").1,
      m.artistMatchQuality = 1) ∧
    (resolve (fun _ _ => 4 / 5) exampleStore "Qeen" "" "Bohemian Rhapsody").1.map
      (fun m => (m.volume, m.artistMatchQuality, m.titleMatchQuality)) = [("/", 1, 4 / 5)] := by
  refine ⟨resolve_artist_quality_one (fun _ _ => 4 / 5) exampleStore "Qeen" ""
    "Bohemian Rhapsody", ?_⟩
  have h3 : resolveFrom exampleStore.db =
      [{ f := exampleFile 1 1 1 "01.mp3" "bohemian rhapsody",
         a := { id := 1, lowercase_name := "queen" },
         d := { id := 1, source := some 1, path := "/music" },
         s := { id := 1, volume := "/", available := 1 } },
       { f := exampleFile 2 2 1 "01.mp3" "bohemian rhapsody",
         a := { id := 1, lowercase_name := "queen" },
         d := { id := 2, source := some 2, path := "/music" },
         s := { id := 2, volume := "/media/usb", available := 0 } }] := by decide
  rw [resolve_nonempty _ _ _ _ _ (by decide) (by decide), h3]
  simp only [List.filter_cons, List.filter_nil]
  norm_num [resolveWhere, resolveArtistIds, resolveSelect, exampleStore,
    createdDatabase, exampleFile, LEVENSHTEIN_ARTIST_THRESHOLD, LEVENSHTEIN_TITLE_THRESHOLD]

/-! ## Claims on the aggregation of the tags -/

theorem allTagsLoop_concat (pre : List TagAvgRow) (r : TagAvgRow) :
    allTagsLoop (pre ++ [r]) = allTagsStep (allTagsLoop pre) r := by
  simp [allTagsLoop, List.foldl_append]

theorem tagsOfArtist_concat_ne (pre : List TagAvgRow) (r : TagAvgRow) (a : Int)
    (h : r.artist ≠ a) : tagsOfArtist (pre ++ [r]) a = tagsOfArtist pre a := by
  simp [tagsOfArtist, List.filter_append, h]

theorem tagsOfArtist_concat_eq (pre : List TagAvgRow) (r : TagAvgRow) :
    tagsOfArtist (pre ++ [r]) r.artist =
      tagsOfArtist pre r.artist ++ [(r.tag, r.weight / 100)] := by
  simp [tagsOfArtist, List.filter_append]

theorem tagsOfArtist_eq_nil (pre : List TagAvgRow) (a : Int)
    (h : ∀ r ∈ pre, r.artist ≠ a) : tagsOfArtist pre a = [] := by
  simp only [tagsOfArtist, List.map_eq_nil_iff, List.filter_eq_nil_iff, decide_eq_true_eq]
  exact h

/-- What the loop of `allTags` has done after a non-empty run of rows that is
ordered by artist and has no artist 0. -/
theorem allTagsLoop_inv (rows : List TagAvgRow)
    (hsorted : (rows.map fun r => r.artist).Pairwise (· ≤ ·))
    (hnz : ∀ r ∈ rows, r.artist ≠ 0) (hne : rows ≠ []) :
    (allTagsLoop rows).prevArtistId ∈ rows.map (fun r => r.artist) ∧
    (∀ r ∈ rows, r.artist ≤ (allTagsLoop rows).prevArtistId) ∧
    (allTagsLoop rows).currentArtistTags =
      tagsOfArtist rows (allTagsLoop rows).prevArtistId ∧
    (allTagsLoop rows).currentArtistTags ≠ [] ∧
    ((allTagsLoop rows).result.map fun e => e.artistId).Pairwise (· < ·) ∧
    (∀ a, a ∈ (allTagsLoop rows).result.map (fun e => e.artistId) ↔
      a ∈ rows.map (fun r => r.artist) ∧ a < (allTagsLoop rows).prevArtistId) ∧
    (∀ e ∈ (allTagsLoop rows).result, e.tagVec = tagsOfArtist rows e.artistId) := by
  induction rows using List.reverseRecOn with
  | nil => exact absurd rfl hne
  | append_singleton pre r ih =>
    have hr0 : r.artist ≠ 0 := hnz r (by simp)
    have hle : ∀ x ∈ pre, x.artist ≤ r.artist := by
      intro x hx
      rw [List.map_append, List.pairwise_append] at hsorted
      exact hsorted.2.2 x.artist (List.mem_map.2 ⟨x, hx, rfl⟩) r.artist (by simp)
    rw [allTagsLoop_concat]
    by_cases hpre : pre = []
    · subst hpre
      have hstep : allTagsStep (allTagsLoop []) r =
          { prevArtistId := r.artist, currentArtistTags := [(r.tag, r.weight / 100)],
            result := [] } := by
        simp [allTagsLoop, allTagsStep]
      rw [hstep]
      refine ⟨by simp, by simp, ?_, by simp, by simp, by simp, by simp⟩
      simp [tagsOfArtist]
    · have hsorted' : (pre.map fun r => r.artist).Pairwise (· ≤ ·) := by
        rw [List.map_append, List.pairwise_append] at hsorted
        exact hsorted.1
      obtain ⟨hmem, hmax, hcur, hcurne, hres, hiff, htags⟩ :=
        ih hsorted' (fun x hx => hnz x (List.mem_append_left _ hx)) hpre
      generalize allTagsLoop pre = st at hmem hmax hcur hcurne hres hiff htags
      obtain ⟨p, hp, hpeq⟩ := List.mem_map.1 hmem
      have hprev0 : st.prevArtistId ≠ 0 := by
        rw [← hpeq]
        exact hnz p (List.mem_append_left _ hp)
      have hprevle : st.prevArtistId ≤ r.artist := by
        rw [← hpeq]
        exact hle p hp
      by_cases hbreak : st.prevArtistId = r.artist
      · have hstep : allTagsStep st r =
            { prevArtistId := st.prevArtistId,
              currentArtistTags := st.currentArtistTags ++ [(r.tag, r.weight / 100)],
              result := st.result } := by
          simp [allTagsStep, hprev0, hbreak]
        rw [hstep]
        refine ⟨?_, ?_, ?_, by simp, hres, ?_, ?_⟩
        · simp [hbreak]
        · intro x hx
          rcases List.mem_append.1 hx with h | h
          · exact hmax x h
          · rw [List.mem_singleton] at h
            rw [h, hbreak]
        · show st.currentArtistTags ++ _ = tagsOfArtist (pre ++ [r]) st.prevArtistId
          rw [hbreak, tagsOfArtist_concat_eq, ← hbreak, hcur]
        · intro a
          show a ∈ st.result.map (fun e => e.artistId) ↔
            a ∈ (pre ++ [r]).map (fun r => r.artist) ∧ a < st.prevArtistId
          rw [hiff a]
          constructor
          · rintro ⟨h1, h2⟩
            exact ⟨by rw [List.map_append]; exact List.mem_append_left _ h1, h2⟩
          · rintro ⟨h1, h2⟩
            rw [List.map_append] at h1
            rcases List.mem_append.1 h1 with h | h
            · exact ⟨h, h2⟩
            · simp only [List.map_cons, List.map_nil, List.mem_singleton] at h
              omega
        · intro e he
          have hlt := ((hiff e.artistId).1 (List.mem_map.2 ⟨e, he, rfl⟩)).2
          rw [tagsOfArtist_concat_ne pre r e.artistId (by omega)]
          exact htags e he
      · have hlt : st.prevArtistId < r.artist := lt_of_le_of_ne hprevle hbreak
        have hstep : allTagsStep st r =
            { prevArtistId := r.artist,
              currentArtistTags := [(r.tag, r.weight / 100)],
              result := st.result ++
                [{ artistId := st.prevArtistId, tagVec := st.currentArtistTags }] } := by
          simp [allTagsStep, hprev0, hbreak]
        rw [hstep]
        refine ⟨by simp, ?_, ?_, by simp, ?_, ?_, ?_⟩
        · intro x hx
          rcases List.mem_append.1 hx with h | h
          · exact hle x h
          · rw [List.mem_singleton] at h
            rw [h]
        · show [(r.tag, r.weight / 100)] = tagsOfArtist (pre ++ [r]) r.artist
          rw [tagsOfArtist_concat_eq, tagsOfArtist_eq_nil]
          · rfl
          · intro x hx
            have := hmax x hx
            omega
        · show ((st.result ++ [_]).map fun (e : Entry) => e.artistId).Pairwise (· < ·)
          rw [List.map_append, List.pairwise_append]
          refine ⟨hres, by simp, ?_⟩
          intro a ha b hb
          simp only [List.map_cons, List.map_nil, List.mem_singleton] at hb
          rw [hb]
          exact ((hiff a).1 ha).2
        · intro a
          show a ∈ (st.result ++ [_]).map (fun (e : Entry) => e.artistId) ↔
            a ∈ (pre ++ [r]).map (fun r => r.artist) ∧ a < r.artist
          rw [List.map_append, List.mem_append, hiff a, List.map_append, List.mem_append]
          simp only [List.map_cons, List.map_nil, List.mem_singleton]
          constructor
          · rintro (⟨h1, h2⟩ | h)
            · exact ⟨Or.inl h1, by omega⟩
            · rw [h]
              exact ⟨Or.inl hmem, hlt⟩
          · rintro ⟨h1 | h1, h2⟩
            · obtain ⟨x, hx, rfl⟩ := List.mem_map.1 h1
              have := hmax x hx
              by_cases heq : x.artist = st.prevArtistId
              · exact Or.inr heq
              · exact Or.inl ⟨h1, by omega⟩
            · omega
        · intro e he
          rcases List.mem_append.1 he with h | h
          · have hlt2 := ((hiff e.artistId).1 (List.mem_map.2 ⟨e, h, rfl⟩)).2
            rw [tagsOfArtist_concat_ne pre r e.artistId (by omega)]
            exact htags e h
          · rw [List.mem_singleton] at h
            subst h
            show st.currentArtistTags = tagsOfArtist (pre ++ [r]) st.prevArtistId
            rw [tagsOfArtist_concat_ne pre r _ (by omega)]
            exact hcur

/-- C12, refuted at a row of artist 0 (what a NULL artist reads as) followed
by a row of artist 1, ordered by artist and tag: the pass takes the artist 0
for "no previous artist", returns the single entry of artist 1 with the tags
1 and 2, so the artist 0 has no entry and the entry of artist 1 holds the tag
of artist 0. -/
theorem allTags_artist_zero :
    ([(0 : Int), 1]).Pairwise (· ≤ ·) ∧
    (allTags [{ artist := 0, tag := 1, weight := 50 }, { artist := 1, tag := 2, weight := 80 }]).map
      (fun e => (e.artistId, e.tagVec.map Prod.fst)) = [(1, [1, 2])] ∧
    (tagsOfArtist [{ artist := 0, tag := 1, weight := 50 },
      { artist := 1, tag := 2, weight := 80 }] 1).map Prod.fst = [2] ∧
    ¬ (∀ a, a ∈ (allTags [{ artist := 0, tag := 1, weight := 50 },
          { artist := 1, tag := 2, weight := 80 }]).map (fun e => e.artistId) ↔
        a ∈ ([{ artist := 0, tag := 1, weight := 50 },
          { artist := 1, tag := 2, weight := 80 }] : List TagAvgRow).map (fun r => r.artist)) := by
  refine ⟨by decide, by decide, by decide, ?_⟩
  intro h
  have h0 := (h 0).2 (by decide)
  revert h0
  decide

/-- C12 as amended: for rows ordered by artist in which no artist id is 0,
`allTags` returns one entry per artist id of the rows, in increasing order of
the artist id, so no two entries share an artist id; the entry of an artist
holds exactly the (tag, weight/100) pairs of the rows of that artist, in row
order. -/
theorem allTags_groups (rows : List TagAvgRow)
    (hsorted : (rows.map fun r => r.artist).Pairwise (· ≤ ·))
    (hnz : ∀ r ∈ rows, r.artist ≠ 0) :
    ((allTags rows).map fun e => e.artistId).Pairwise (· < ·) ∧
    ((allTags rows).map fun e => e.artistId).Nodup ∧
    (∀ a, a ∈ (allTags rows).map (fun e => e.artistId) ↔
      a ∈ rows.map (fun r => r.artist)) ∧
    (allTags rows).map (fun e => e.tagVec) =
      (allTags rows).map (fun e => tagsOfArtist rows e.artistId) := by
  have main : ((allTags rows).map fun e => e.artistId).Pairwise (· < ·) ∧
      (∀ a, a ∈ (allTags rows).map (fun e => e.artistId) ↔
        a ∈ rows.map (fun r => r.artist)) ∧
      (∀ e ∈ allTags rows, e.tagVec = tagsOfArtist rows e.artistId) := by
    by_cases hne : rows = []
    · subst hne
      simp [allTags, allTagsLoop]
    · obtain ⟨hmem, hmax, hcur, hcurne, hres, hiff, htags⟩ :=
        allTagsLoop_inv rows hsorted hnz hne
      have hall : allTags rows = (allTagsLoop rows).result ++
          [{ artistId := (allTagsLoop rows).prevArtistId,
             tagVec := (allTagsLoop rows).currentArtistTags }] := by
        unfold allTags
        simp [hcurne]
      rw [hall]
      generalize allTagsLoop rows = st at hmem hmax hcur hcurne hres hiff htags
      refine ⟨?_, ?_, ?_⟩
      · rw [List.map_append, List.pairwise_append]
        refine ⟨hres, by simp, ?_⟩
        intro a ha b hb
        simp only [List.map_cons, List.map_nil, List.mem_singleton] at hb
        rw [hb]
        exact ((hiff a).1 ha).2
      · intro a
        rw [List.map_append, List.mem_append, hiff a]
        simp only [List.map_cons, List.map_nil, List.mem_singleton]
        constructor
        · rintro (⟨h1, _⟩ | h)
          · exact h1
          · rw [h]; exact hmem
        · intro h1
          obtain ⟨x, hx, rfl⟩ := List.mem_map.1 h1
          have := hmax x hx
          by_cases heq : x.artist = st.prevArtistId
          · exact Or.inr heq
          · exact Or.inl ⟨h1, by omega⟩
      · intro e he
        rcases List.mem_append.1 he with h | h
        · exact htags e h
        · rw [List.mem_singleton] at h
          subst h
          exact hcur
  refine ⟨main.1, ?_, main.2.1, ?_⟩
  · exact main.1.imp (fun h => ne_of_lt h)
  · apply List.map_congr_left
    exact main.2.2

/-- C12 as amended, on rows of the artists 1 and 3. -/
theorem allTags_groups_witness :
    (([{ artist := 1, tag := 1, weight := 50 }, { artist := 1, tag := 2, weight := 80 },
        { artist := 3, tag := 1, weight := 10 }] : List TagAvgRow).map
          fun r => r.artist).Pairwise (· ≤ ·) ∧
    (∀ r ∈ ([{ artist := 1, tag := 1, weight := 50 }, { artist := 1, tag := 2, weight := 80 },
        { artist := 3, tag := 1, weight := 10 }] : List TagAvgRow), r.artist ≠ 0) ∧
    ((allTags [{ artist := 1, tag := 1, weight := 50 }, { artist := 1, tag := 2, weight := 80 },
        { artist := 3, tag := 1, weight := 10 }]).map fun e => e.artistId).Nodup ∧
    (allTags [{ artist := 1, tag := 1, weight := 50 }, { artist := 1, tag := 2, weight := 80 },
        { artist := 3, tag := 1, weight := 10 }]).map
      (fun e => (e.artistId, e.tagVec.map Prod.fst)) = [(1, [1, 2]), (3, [1])] :=
  ⟨by decide, by decide,
    (allTags_groups [{ artist := 1, tag := 1, weight := 50 },
      { artist := 1, tag := 2, weight := 80 }, { artist := 3, tag := 1, weight := 10 }]
      (by decide) (by decide)).2.1,
    by decide⟩

/-! ## Claims on the resolution of a tag list -/

theorem getTagId_db_congr (s s2 : Store) (tag : String) (flag : Creation) (h : s.db = s2.db) :
    (getTagId s tag flag).1 = (getTagId s2 tag flag).1 ∧
    (getTagId s tag flag).2.db = (getTagId s2 tag flag).2.db := by
  cases hfind : s.db.tags.find? (fun t => decide (t.name = toLower (simplified tag))) with
  | some t =>
    rw [getTagId_found s tag flag t hfind, getTagId_found s2 tag flag t (h ▸ hfind)]
    exact ⟨rfl, h⟩
  | none =>
    cases flag with
    | Create =>
      rw [getTagId_create_missing s tag hfind, getTagId_create_missing s2 tag (h ▸ hfind)]
      simp only [h, and_self]
    | NoCreate =>
      rw [getTagId_nocreate_missing s tag hfind,
        getTagId_nocreate_missing s2 tag (h ▸ hfind)]
      exact ⟨rfl, h⟩

theorem getTagId_create_row (s : Store) (tag : String) :
    ∃ t, (getTagId s tag Creation.Create).2.db.tags.find?
        (fun t => decide (t.name = toLower (simplified tag))) = some t ∧
      toInt t.id = (getTagId s tag Creation.Create).1 := by
  cases hfind : s.db.tags.find? (fun t => decide (t.name = toLower (simplified tag))) with
  | some t =>
    rw [getTagId_found s tag _ t hfind]
    exact ⟨t, hfind, rfl⟩
  | none =>
    rw [getTagId_create_missing s tag hfind]
    exact ⟨{ id := nextRowId s.db.tagsSeq (s.db.tags.map fun t => t.id),
             name := toLower (simplified tag) }, by simp [List.find?_append, hfind], rfl⟩

theorem cacheOk_of_prefix (db db2 : Database) (map : List (String × Int))
    (hok : CacheOk db map) (hpre : db.tags <+: db2.tags) : CacheOk db2 map := by
  intro k v hk
  obtain ⟨t, ht, hid⟩ := hok k v hk
  obtain ⟨extra, hextra⟩ := hpre
  refine ⟨t, ?_, hid⟩
  rw [← hextra, List.find?_append, ht]
  rfl

theorem cacheOk_insert (s : Store) (tag : String) (map : List (String × Int))
    (hok : CacheOk s.db map) :
    CacheOk (getTagId s tag Creation.Create).2.db
      ((tag, (getTagId s tag Creation.Create).1) :: map) := by
  intro k v hk
  rw [List.lookup_cons] at hk
  by_cases hkt : k = tag
  · subst hkt
    simp only [beq_self_eq_true, Option.some.injEq] at hk
    obtain ⟨t, ht, hid⟩ := getTagId_create_row s k
    exact ⟨t, ht, hid.trans hk⟩
  · have hbeq : (k == tag) = false := by simpa using hkt
    rw [hbeq] at hk
    exact cacheOk_of_prefix s.db _ map hok (getTagId_frame s tag Creation.Create).2.2.2.2 k v hk

/-- The ids and the database of the resolution with a map that agrees with
the tags table are those of the resolution without a map. -/
theorem resolveTagsLoop_eq_each (tags : List String) (s s2 : Store)
    (map : List (String × Int)) (hdb : s.db = s2.db) (hok : CacheOk s.db map) :
    (resolveTagsLoop s map tags).1 = (getTagIdEach s2 tags).1 ∧
    (resolveTagsLoop s map tags).2.2.db = (getTagIdEach s2 tags).2.db := by
  induction tags generalizing s s2 map with
  | nil => exact ⟨rfl, hdb⟩
  | cons tag rest ih =>
    cases hlook : map.lookup tag with
    | some v =>
      obtain ⟨t, ht, hid⟩ := hok tag v hlook
      have hg := getTagId_found s2 tag Creation.Create t (hdb ▸ ht)
      have hstep : getTagIdEach s2 (tag :: rest) =
          (toInt t.id :: (getTagIdEach
            (s2.issue (Stmt.selectTagId (toLower (simplified tag)))) rest).1,
            (getTagIdEach (s2.issue (Stmt.selectTagId (toLower (simplified tag)))) rest).2) := by
        conv_lhs => unfold getTagIdEach
        simp only [hg]
      have hloop : resolveTagsLoop s map (tag :: rest) =
          (v :: (resolveTagsLoop s map rest).1, (resolveTagsLoop s map rest).2) := by
        conv_lhs => unfold resolveTagsLoop
        simp only [hlook]
      rw [hstep, hloop]
      obtain ⟨h1, h2⟩ := ih s (s2.issue (Stmt.selectTagId (toLower (simplified tag)))) map
        hdb hok
      exact ⟨by rw [h1, hid], h2⟩
    | none =>
      obtain ⟨hg1, hg2⟩ := getTagId_db_congr s s2 tag Creation.Create hdb
      have hstep : getTagIdEach s2 (tag :: rest) =
          ((getTagId s2 tag Creation.Create).1 ::
            (getTagIdEach (getTagId s2 tag Creation.Create).2 rest).1,
            (getTagIdEach (getTagId s2 tag Creation.Create).2 rest).2) := by
        conv_lhs => unfold getTagIdEach
      have hloop : resolveTagsLoop s map (tag :: rest) =
          ((getTagId s tag Creation.Create).1 ::
            (resolveTagsLoop (getTagId s tag Creation.Create).2
              ((tag, (getTagId s tag Creation.Create).1) :: map) rest).1,
            (resolveTagsLoop (getTagId s tag Creation.Create).2
              ((tag, (getTagId s tag Creation.Create).1) :: map) rest).2) := by
        conv_lhs => unfold resolveTagsLoop
        simp only [hlook]
      rw [hstep, hloop]
      obtain ⟨h1, h2⟩ := ih (getTagId s tag Creation.Create).2
        (getTagId s2 tag Creation.Create).2
        ((tag, (getTagId s tag Creation.Create).1) :: map) hg2 (cacheOk_insert s tag map hok)
      exact ⟨by rw [h1, hg1], h2⟩

theorem getTagId_select_count (s : Store) (tag : String) (flag : Creation) :
    ∃ new, (getTagId s tag flag).2.trace = s.trace ++ new ∧
      new.countP Stmt.isSelectTagId = 1 := by
  cases hfind : s.db.tags.find? (fun t => decide (t.name = toLower (simplified tag))) with
  | some t =>
    rw [getTagId_found s tag flag t hfind]
    exact ⟨[Stmt.selectTagId (toLower (simplified tag))], rfl, rfl⟩
  | none =>
    cases flag with
    | Create =>
      rw [getTagId_create_missing s tag hfind]
      exact ⟨[Stmt.selectTagId (toLower (simplified tag)),
        Stmt.insertTag (toLower (simplified tag))], rfl, rfl⟩
    | NoCreate =>
      rw [getTagId_nocreate_missing s tag hfind]
      exact ⟨[Stmt.selectTagId (toLower (simplified tag))], rfl, rfl⟩

theorem lookup_eq_none_iff_not_mem_keys (map : List (String × Int)) (k : String) :
    map.lookup k = none ↔ k ∉ (map.map Prod.fst).toFinset := by
  induction map with
  | nil => simp
  | cons p rest ih =>
    obtain ⟨a, b⟩ := p
    rw [List.lookup_cons]
    by_cases hka : k = a
    · subst hka; simp
    · have hbeq : (k == a) = false := by simpa using hka
      simp only [hbeq, ih, List.map_cons, List.toFinset_cons, Finset.mem_insert, hka, false_or]

/-- The loop of `resolveTags` calls `getTagId` once for each distinct tag
string of the list that is not a key of the map. -/
theorem resolveTagsLoop_select_count (tags : List String) (s : Store)
    (map : List (String × Int)) :
    ∃ new, (resolveTagsLoop s map tags).2.2.trace = s.trace ++ new ∧
      new.countP Stmt.isSelectTagId = (tags.toFinset \ (map.map Prod.fst).toFinset).card ∧
      (resolveTagsLoop s map tags).1.length = tags.length := by
  induction tags generalizing s map with
  | nil => exact ⟨[], by simp [resolveTagsLoop], by simp, rfl⟩
  | cons tag rest ih =>
    cases hlook : map.lookup tag with
    | some v =>
      have hloop : resolveTagsLoop s map (tag :: rest) =
          (v :: (resolveTagsLoop s map rest).1, (resolveTagsLoop s map rest).2) := by
        conv_lhs => unfold resolveTagsLoop
        simp only [hlook]
      rw [hloop]
      obtain ⟨new, h1, h2, h3⟩ := ih s map
      have hmem : tag ∈ (map.map Prod.fst).toFinset := by
        by_contra hcon
        rw [(lookup_eq_none_iff_not_mem_keys map tag).2 hcon] at hlook
        exact Option.noConfusion hlook
      refine ⟨new, h1, ?_, by simp [h3]⟩
      rw [h2, List.toFinset_cons, Finset.insert_sdiff_of_mem _ hmem]
    | none =>
      have hloop : resolveTagsLoop s map (tag :: rest) =
          ((getTagId s tag Creation.Create).1 ::
            (resolveTagsLoop (getTagId s tag Creation.Create).2
              ((tag, (getTagId s tag Creation.Create).1) :: map) rest).1,
            (resolveTagsLoop (getTagId s tag Creation.Create).2
              ((tag, (getTagId s tag Creation.Create).1) :: map) rest).2) := by
        conv_lhs => unfold resolveTagsLoop
        simp only [hlook]
      rw [hloop]
      obtain ⟨n1, hn1, hc1⟩ := getTagId_select_count s tag Creation.Create
      obtain ⟨n2, hn2, hc2, hl2⟩ := ih (getTagId s tag Creation.Create).2
        ((tag, (getTagId s tag Creation.Create).1) :: map)
      have hnot : tag ∉ (map.map Prod.fst).toFinset :=
        (lookup_eq_none_iff_not_mem_keys map tag).1 hlook
      refine ⟨n1 ++ n2, by rw [hn2, hn1, List.append_assoc], ?_, by simp [hl2]⟩
      rw [List.countP_append, hc1, hc2, List.toFinset_cons, List.map_cons, List.toFinset_cons,
        Finset.insert_sdiff_of_not_mem _ hnot, Finset.sdiff_insert]
      dsimp only
      by_cases hin : tag ∈ rest.toFinset \ (map.map Prod.fst).toFinset
      · rw [Finset.insert_eq_of_mem hin]
        have := Finset.card_erase_add_one hin
        omega
      · rw [Finset.card_insert_of_not_mem hin, Finset.erase_eq_of_not_mem hin]
        omega

/-- C17: `resolveTags(tags)`, which starts with an empty map, returns a list
of the length of `tags` that is the list of the ids that `getTagId(tag,
Create)` returns when it is called for each element in order; both leave the
same database; and `resolveTags` calls `getTagId` once for each distinct tag
string of the list. -/
theorem resolveTags_eq_getTagId_each (s : Store) (tags : List String) :
    (resolveTags s tags).1.length = tags.length ∧
    (resolveTags s tags).1 = (getTagIdEach s tags).1 ∧
    (resolveTags s tags).2.db = (getTagIdEach s tags).2.db ∧
    (issuedBy s (resolveTags s tags).2).countP Stmt.isSelectTagId = tags.toFinset.card := by
  obtain ⟨h1, h2⟩ := resolveTagsLoop_eq_each tags s s [] rfl
    (by intro k v hk; simp at hk)
  obtain ⟨new, hn, hc, hl⟩ := resolveTagsLoop_select_count tags s []
  refine ⟨hl, h1, h2, ?_⟩
  show (issuedBy s (resolveTagsLoop s [] tags).2.2).countP Stmt.isSelectTagId = _
  unfold issuedBy
  rw [hn, List.drop_left, hc]
  simp

/-! ## Claims on the foreign keys of the files -/

theorem getArtistId_create_mem (s : Store) (artistName : String) (hok : ArtistsOk s.db) :
    (∃ a ∈ (getArtistId s artistName Creation.Create).2.db.artists,
      a.id = (getArtistId s artistName Creation.Create).1) ∧
    s.db.artists <+: (getArtistId s artistName Creation.Create).2.db.artists ∧
    (getArtistId s artistName Creation.Create).2.db.directories = s.db.directories ∧
    (getArtistId s artistName Creation.Create).2.db.files = s.db.files := by
  cases hfind : s.db.artists.find?
      (fun a => decide (a.lowercase_name = toLower (simplified artistName))) with
  | some a =>
    rw [getArtistId_found s artistName _ a hfind]
    have hmem : a ∈ s.db.artists := List.mem_of_find?_eq_some hfind
    obtain ⟨h0, h1⟩ := hok.1 a hmem
    exact ⟨⟨a, hmem, (toInt_of_pos h0 (by omega)).symm⟩, List.prefix_refl _, rfl, rfl⟩
  | none =>
    rw [getArtistId_create_missing s artistName hfind]
    obtain ⟨hb0, hb1⟩ := nextRowId_bounds s.db hok
    exact ⟨⟨_, List.mem_append_right _ (List.mem_singleton_self _),
      (toInt_of_pos hb0 hb1).symm⟩, List.prefix_append _ _, rfl, rfl⟩

theorem artistFk_of_prefix (files : List FileRow) (artists artists2 : List ArtistRow)
    (h : ∀ f ∈ files, ∃ a ∈ artists, f.artist = some a.id) (hpre : artists <+: artists2) :
    ∀ f ∈ files, ∃ a ∈ artists2, f.artist = some a.id := by
  intro f hf
  obtain ⟨a, ha, hfa⟩ := h f hf
  exact ⟨a, hpre.subset ha, hfa⟩

theorem removeFiles_frame (s : Store) (ids : List Int) :
    (∀ f ∈ (removeFiles s ids).2.db.files, f ∈ s.db.files) ∧
    (removeFiles s ids).2.db.artists = s.db.artists ∧
    (removeFiles s ids).2.db.directories = s.db.directories := by
  by_cases hne : ids = []
  · subst hne
    simp [removeFiles]
  · cases hp : prepareColumns s.db.tracktagsColumns ["file"] with
    | error e =>
      simp only [removeFiles, hne, ne_eq, not_false_eq_true, if_true, Store.issue, hp]
      exact ⟨fun f hf => (List.mem_filter.1 hf).1, trivial, trivial⟩
    | ok u =>
      simp only [removeFiles, hne, ne_eq, not_false_eq_true, if_true, Store.issue, hp]
      exact ⟨fun f hf => (List.mem_filter.1 hf).1, trivial, trivial⟩

/-- C15, refuted on the example store, which satisfies both halves of the
invariant: after `removeDirectory(1)` the file 1 refers to a directory that
does not exist, and so does the file that `addFile` inserts for the directory
id 99. -/
theorem fileFk_broken :
    ArtistFk exampleStore.db ∧ DirectoryFk exampleStore.db ∧
    ¬ DirectoryFk (removeDirectory exampleStore 1).db ∧
    ¬ DirectoryFk (addFile exampleStore 99 "02.mp3" 0
      { m_artist := "Queen", m_album := "A Night at the Opera", m_title := "Love of My Life",
        m_kbps := 128, m_duration := 219 }).db := by
  refine ⟨by decide, by decide, by decide, by decide⟩

/-- C15 as amended: on a store whose artists table satisfies its constraints
and whose files refer to existing artists and directories, `updateFile`,
`removeFiles`, `addDirectory`, `addSource` and `setSourceAvailability` keep
both halves of the invariant for all arguments; `addFile` keeps the artist
half for all arguments and the directory half when its directory id is the id
of a directory row; `removeDirectory` keeps the artist half for all arguments
and the directory half when no file row refers to the removed directory. -/
theorem fileFk_preserved (s : Store) (hok : ArtistsOk s.db) (hA : ArtistFk s.db)
    (hD : DirectoryFk s.db) :
    (∀ directoryId filename lastModified info,
      ArtistFk (addFile s directoryId filename lastModified info).db ∧
      ((∃ d ∈ s.db.directories, d.id = directoryId) →
        DirectoryFk (addFile s directoryId filename lastModified info).db)) ∧
    (∀ fileId lastModified info,
      ArtistFk (updateFile s fileId lastModified info).db ∧
      DirectoryFk (updateFile s fileId lastModified info).db) ∧
    (∀ ids, ArtistFk (removeFiles s ids).2.db ∧ DirectoryFk (removeFiles s ids).2.db) ∧
    (∀ sourceId path,
      ArtistFk (addDirectory s sourceId path).2.db ∧
      DirectoryFk (addDirectory s sourceId path).2.db) ∧
    (∀ directoryId,
      ArtistFk (removeDirectory s directoryId).db ∧
      ((∀ f ∈ s.db.files, f.directory ≠ directoryId) →
        DirectoryFk (removeDirectory s directoryId).db)) ∧
    (∀ volume, ArtistFk (addSource s volume).2.db ∧ DirectoryFk (addSource s volume).2.db) ∧
    (∀ sourceId available,
      ArtistFk (setSourceAvailability s sourceId available).db ∧
      DirectoryFk (setSourceAvailability s sourceId available).db) := by
  refine ⟨?_, ?_, ?_, ?_, ?_, ?_, ?_⟩
  · intro directoryId filename lastModified info
    obtain ⟨⟨a, ha, hid⟩, hpre, hdirs, hfiles⟩ := getArtistId_create_mem s info.m_artist hok
    constructor
    · intro f hf
      simp only [addFile, Store.issue, List.mem_append, List.mem_singleton] at hf
      rcases hf with h | h
      · rw [hfiles] at h
        exact artistFk_of_prefix _ _ _ hA hpre f h
      · exact ⟨a, ha, by rw [h, hid]⟩
    · rintro ⟨d, hd, hdid⟩ f hf
      simp only [addFile, Store.issue, List.mem_append, List.mem_singleton] at hf
      show ∃ d ∈ (getArtistId s info.m_artist Creation.Create).2.db.directories, _
      rw [hdirs]
      rcases hf with h | h
      · rw [hfiles] at h
        exact hD f h
      · exact ⟨d, hd, by rw [h, hdid]⟩
  · intro fileId lastModified info
    obtain ⟨⟨a, ha, hid⟩, hpre, hdirs, hfiles⟩ := getArtistId_create_mem s info.m_artist hok
    constructor
    · intro f hf
      simp only [updateFile, Store.issue, List.mem_map] at hf
      obtain ⟨g, hg, rfl⟩ := hf
      rw [hfiles] at hg
      split
      · exact ⟨a, ha, by rw [hid]⟩
      · exact artistFk_of_prefix _ _ _ hA hpre g hg
    · intro f hf
      simp only [updateFile, Store.issue, List.mem_map] at hf
      obtain ⟨g, hg, rfl⟩ := hf
      rw [hfiles] at hg
      show ∃ d ∈ (getArtistId s info.m_artist Creation.Create).2.db.directories, _
      rw [hdirs]
      obtain ⟨d, hd, hgd⟩ := hD g hg
      refine ⟨d, hd, ?_⟩
      split
      · exact hgd
      · exact hgd
  · intro ids
    obtain ⟨hsub, hart, hdir⟩ := removeFiles_frame s ids
    constructor
    · intro f hf
      rw [hart]
      exact hA f (hsub f hf)
    · intro f hf
      rw [hdir]
      exact hD f (hsub f hf)
  · intro sourceId path
    constructor
    · exact hA
    · intro f hf
      obtain ⟨d, hd, hfd⟩ := hD f hf
      exact ⟨d, List.mem_append_left _ hd, hfd⟩
  · intro directoryId
    constructor
    · exact hA
    · intro hnone f hf
      obtain ⟨d, hd, hfd⟩ := hD f hf
      refine ⟨d, List.mem_filter.2 ⟨hd, ?_⟩, hfd⟩
      have := hnone f hf
      simp only [Bool.not_eq_true', decide_eq_false_iff_not]
      rw [← hfd]
      exact this
  · intro volume
    obtain ⟨hfiles, hart, hdir⟩ : (addSource s volume).2.db.files = s.db.files ∧
        (addSource s volume).2.db.artists = s.db.artists ∧
        (addSource s volume).2.db.directories = s.db.directories := by
      simp only [addSource, Store.issue]
      split <;> exact ⟨rfl, rfl, rfl⟩
    constructor
    · intro f hf
      rw [hart]
      exact hA f (hfiles ▸ hf)
    · intro f hf
      rw [hdir]
      exact hD f (hfiles ▸ hf)
  · intro sourceId available
    exact ⟨hA, hD⟩

/-- C15 as amended, on the example store. -/
theorem fileFk_preserved_witness :
    (ArtistsOk exampleStore.db ∧ ArtistFk exampleStore.db ∧ DirectoryFk exampleStore.db) ∧
    DirectoryFk (addFile exampleStore 2 "02.mp3" 0
      { m_artist := "ABBA", m_album := "Arrival", m_title := "Dancing Queen",
        m_kbps := 128, m_duration := 231 }).db ∧
    DirectoryFk (removeDirectory exampleStore 3).db :=
  ⟨⟨by decide, by decide, by decide⟩,
    ((fileFk_preserved exampleStore (by decide) (by decide) (by decide)).1 2 "02.mp3" 0
      { m_artist := "ABBA", m_album := "Arrival", m_title := "Dancing Queen",
        m_kbps := 128, m_duration := 231 }).2 (by decide),
    ((fileFk_preserved exampleStore (by decide) (by decide) (by decide)).2.2.2.2.1 3).2
      (by decide)⟩

/-! ## Lemmas on opening the database -/

theorem andThen_fold_error {α : Type} (step : DbFile → α → Except QueryError Unit × DbFile)
    (l : List α) (e : QueryError) (f : DbFile) :
    l.foldl (fun r a => andThen r fun g => step g a) (Except.error e, f) =
      (Except.error e, f) := by
  induction l with
  | nil => rfl
  | cons a rest ih => exact ih

theorem dropFold_ok (l : List String) (g g2 : DbFile) (u : Unit)
    (h : l.foldl (fun r table => andThen r fun g => dropTable g table) (Except.ok (), g) =
      (Except.ok u, g2)) :
    g2.tables = g.tables.filter (fun t => !l.contains t) := by
  induction l generalizing g with
  | nil =>
    simp only [List.foldl_nil, Prod.mk.injEq] at h
    rw [← h.2]
    simp
  | cons t rest ih =>
    rw [List.foldl_cons] at h
    by_cases hseq : t = "sqlite_sequence"
    · have hstep : andThen (Except.ok (), g) (fun g => dropTable g t) =
          (Except.error { what := "table sqlite_sequence may not be dropped" }, g) := by
        simp only [andThen, dropTable, hseq, if_true]
      rw [hstep, andThen_fold_error] at h
      simp at h
    by_cases hc : g.tables.contains t = true
    · have hstep : andThen (Except.ok (), g) (fun g => dropTable g t) =
          (Except.ok (), { tables := g.tables.filter fun x => !decide (x = t),
                           content := clearTable t g.content }) := by
        simp only [andThen, dropTable, hseq, hc, if_true, if_false]
      rw [hstep] at h
      rw [ih _ h]
      simp only [List.filter_filter]
      apply List.filter_congr
      intro x _
      by_cases hx : x = t
      · simp [hx]
      · simp [hx, List.contains_cons]
    · have hstep : andThen (Except.ok (), g) (fun g => dropTable g t) =
          (Except.error { what := "no such table" }, g) := by
        simp only [andThen, dropTable, hseq, hc, if_false]
        rfl
      rw [hstep, andThen_fold_error] at h
      simp at h

theorem dropFold_succeeds (l : List String) (g : DbFile) (hnodup : l.Nodup)
    (hsub : ∀ t ∈ l, t ∈ g.tables) (hnoseq : "sqlite_sequence" ∉ l) :
    ∃ g2, l.foldl (fun r table => andThen r fun g => dropTable g table) (Except.ok (), g) =
      (Except.ok (), g2) := by
  induction l generalizing g with
  | nil => exact ⟨g, rfl⟩
  | cons t rest ih =>
    rw [List.foldl_cons]
    have hc : g.tables.contains t = true := by
      simpa using hsub t (List.mem_cons_self _ _)
    have hseq : t ≠ "sqlite_sequence" := fun h => hnoseq (h ▸ List.mem_cons_self _ _)
    have hstep : andThen (Except.ok (), g) (fun g => dropTable g t) =
        (Except.ok (), { tables := g.tables.filter fun x => !decide (x = t),
                         content := clearTable t g.content }) := by
      simp only [andThen, dropTable, hseq, hc, if_true, if_false]
    rw [hstep]
    obtain ⟨hnot, hrest⟩ := List.nodup_cons.1 hnodup
    apply ih _ hrest ?_ (fun h => hnoseq (List.mem_cons_of_mem _ h))
    intro x hx
    refine List.mem_filter.2 ⟨hsub x (List.mem_cons_of_mem _ hx), ?_⟩
    have : x ≠ t := fun h => hnot (h ▸ hx)
    simp [this]

/-- When `dropAll` succeeds, no table is left. -/
theorem dropAll_ok (f f1 : DbFile) (u : Unit) (h : dropAll f = (Except.ok u, f1)) :
    f1.tables = [] := by
  have := dropFold_ok f.tables f f1 u h
  rw [this, List.filter_eq_nil_iff]
  intro t ht
  simp [ht]

set_option maxHeartbeats 1000000 in
theorem createSchema_of_no_tables (f : DbFile) (h : f.tables = []) :
    createSchema f = (Except.ok (), createdFile) := by
  obtain ⟨tables, content⟩ := f
  simp only at h
  subst h
  rfl

theorem version_createdFile_content (f : DbFile) (hc : f.content = createdDatabase)
    (hm : f.tables.contains "metadata" = true) : version f = Except.ok 3 := by
  unfold version
  rw [hm, hc]
  rfl

theorem mem_tablesAfterCreate (tables : List String) (table : String) :
    (∀ t ∈ tables, t ∈ tablesAfterCreate tables table) ∧
    table ∈ tablesAfterCreate tables table := by
  unfold tablesAfterCreate
  split <;> simp <;> tauto

theorem createFold_ok (l : List (String × List String)) (g g2 : DbFile) (u : Unit)
    (h : l.foldl (fun r entry => andThen r fun g => createTable g entry) (Except.ok (), g) =
      (Except.ok u, g2)) :
    (∀ t ∈ g.tables, t ∈ g2.tables) ∧ (∀ e ∈ l, e.1 ∈ g2.tables) ∧
    g2.content = l.foldl (fun c entry => setColumns entry.1 entry.2 (clearTable entry.1 c))
      g.content := by
  induction l generalizing g with
  | nil =>
    simp only [List.foldl_nil, Prod.mk.injEq] at h
    rw [← h.2]
    simp
  | cons e rest ih =>
    rw [List.foldl_cons] at h
    by_cases hc : g.tables.contains e.1 = true
    · have hstep : andThen (Except.ok (), g) (fun g => createTable g e) =
          (Except.error { what := "table already exists" }, g) := by
        simp only [andThen, createTable, hc, if_true]
      rw [hstep, andThen_fold_error] at h
      simp at h
    · have hstep : andThen (Except.ok (), g) (fun g => createTable g e) =
          (Except.ok (), DbFile.mk (tablesAfterCreate g.tables e.1)
            (setColumns e.1 e.2 (clearTable e.1 g.content))) := by
        simp only [andThen, createTable, hc, if_false]
        rfl
      rw [hstep] at h
      obtain ⟨h1, h2, h3⟩ := ih _ h
      obtain ⟨m1, m2⟩ := mem_tablesAfterCreate g.tables e.1
      refine ⟨fun t ht => h1 t (m1 t ht), ?_, by rw [h3]; rfl⟩
      intro x hx
      rcases List.mem_cons.1 hx with hx | hx
      · rw [hx]
        exact h1 _ m2
      · exact h2 x hx

/-- When `createSchema` succeeds, the rows are those of the created database
and the `metadata` table exists, whatever the file held before. -/
theorem createSchema_ok (f f1 : DbFile) (u : Unit) (h : createSchema f = (Except.ok u, f1)) :
    f1.content = createdDatabase ∧ f1.tables.contains "metadata" = true := by
  unfold createSchema at h
  generalize hfold : schema.foldl (fun r entry => andThen r fun g => createTable g entry)
    (Except.ok (), f) = r at h
  obtain ⟨res, g⟩ := r
  cases res with
  | error e => simp [andThen] at h
  | ok u2 =>
    obtain ⟨_, ht, hc⟩ := createFold_ok schema f g u2 hfold
    simp only [andThen, insertVersion, Prod.mk.injEq] at h
    rw [← h.2]
    constructor
    · dsimp only
      rw [hc]
      rfl
    · dsimp only
      have := ht ("metadata", ["key", "value"]) (by simp [schema])
      simpa using this

theorem versionCheck_error (k : DbFile → Option (Except QueryError Unit × DbFile))
    (f : DbFile) (e : QueryError) (h : version f = Except.error e) :
    versionCheck k f = some (Except.error e, f) := by
  simp only [versionCheck, h]

theorem versionCheck_current (k : DbFile → Option (Except QueryError Unit × DbFile))
    (f : DbFile) (v : Int) (h : version f = Except.ok v) (hv : ¬ v < 3) :
    versionCheck k f = some (Except.ok (), f) := by
  simp only [versionCheck, h, LOCAL_COLLECTION_SCHEMA_VERSION_INT, hv, if_false]

theorem initDatabase_no_tables (n : Nat) (f : DbFile) (h : f.tables = []) :
    initDatabase (n + 1) f = some (Except.ok (), createdFile) := by
  have hc := createSchema_of_no_tables f h
  have hv : version createdFile = Except.ok 3 := rfl
  unfold initDatabase
  simp only [h, List.contains_nil, Bool.not_false, if_true, hc]
  exact versionCheck_current _ createdFile 3 hv (by decide)

/-- The result of `initDatabase` does not depend on the bound on the nested
calls when the bound is at least 2. -/
theorem initDatabase_total (f : DbFile) :
    ∃ r, ∀ n, initDatabase (n + 2) f = some r := by
  by_cases hm : f.tables.contains "metadata" = true
  · have hinit : ∀ n, initDatabase (n + 2) f = versionCheck (initDatabase (n + 1)) f := by
      intro n
      conv_lhs => unfold initDatabase
      simp only [hm, Bool.not_true, Bool.false_eq_true, if_false]
    cases hv : version f with
    | error e =>
      exact ⟨(Except.error e, f), fun n => by rw [hinit, versionCheck_error _ f e hv]⟩
    | ok v =>
      by_cases hlt : v < 3
      · cases hd : dropAll f with
        | mk res f1 =>
          cases res with
          | error e =>
            refine ⟨(Except.error e, f1), fun n => ?_⟩
            rw [hinit]
            simp only [versionCheck, hv, LOCAL_COLLECTION_SCHEMA_VERSION_INT, hlt, if_true, hd]
          | ok u =>
            refine ⟨(Except.ok (), createdFile), fun n => ?_⟩
            rw [hinit]
            simp only [versionCheck, hv, LOCAL_COLLECTION_SCHEMA_VERSION_INT, hlt, if_true, hd]
            exact initDatabase_no_tables n f1 (dropAll_ok f f1 u hd)
      · exact ⟨(Except.ok (), f), fun n => by rw [hinit, versionCheck_current _ f v hv hlt]⟩
  · have hinit : ∀ n, initDatabase (n + 2) f =
        match createSchema f with
        | (Except.ok _, f1) => versionCheck (initDatabase (n + 1)) f1
        | (Except.error e, f1) => some (Except.error e, f1) := by
      intro n
      conv_lhs => unfold initDatabase
      simp only [hm, Bool.not_false, if_true]
    cases hc : createSchema f with
    | mk res f1 =>
      cases res with
      | error e =>
        exact ⟨(Except.error e, f1), fun n => by rw [hinit, hc]⟩
      | ok u =>
        obtain ⟨h1, h2⟩ := createSchema_ok f f1 u hc
        refine ⟨(Except.ok (), f1), fun n => ?_⟩
        rw [hinit, hc]
        exact versionCheck_current _ f1 3 (version_createdFile_content f1 h1 h2) (by decide)

/-! ## Claims on opening the database -/

theorem version_ok_iff (f : DbFile) (v : Int) :
    version f = Except.ok v ↔
      f.tables.contains "metadata" = true ∧
      ∃ row text n, f.content.metadata.find? (fun row => decide (row.1 = "version")) = some row ∧
        row.2 = some text ∧ parseLongLong text = some n ∧ toInt n = v := by
  constructor
  · intro h
    unfold version at h
    split at h
    · rename_i hm
      split at h
      · rename_i row hfind
        split at h
        · rename_i text hval
          split at h
          · rename_i n hp
            exact ⟨hm, row, text, n, hfind, hval, hp, Except.ok.inj h⟩
          · exact Except.noConfusion h
        · exact Except.noConfusion h
      · exact Except.noConfusion h
    · exact Except.noConfusion h
  · rintro ⟨hm, row, text, n, hfind, hval, hp, hv⟩
    unfold version
    rw [if_pos hm]
    simp only [hfind, hval, hp, hv]

/-- Where no table is `sqlite_sequence`: for every file with distinct table
names, none of them `sqlite_sequence`, whose `version()` is an integer below
3, `initDatabase` drops every table, so that no table is left, creates the
schema and returns; the file it leaves has the tables of the schema and
`sqlite_sequence`, every table of the schema is empty except `metadata`, which
holds the version row, and `version()` is 3. -/
theorem initDatabase_upgrade (f : DbFile) (v : Int) (n : Nat) (hnodup : f.tables.Nodup)
    (hnoseq : "sqlite_sequence" ∉ f.tables)
    (hv : version f = Except.ok v) (hlt : v < 3) :
    (∃ f1, dropAll f = (Except.ok (), f1) ∧ f1.tables = []) ∧
    initDatabase (n + 2) f = some (Except.ok (), createdFile) ∧
    createdFile.tables = ["files", "sqlite_sequence", "artists", "simartists", "tags",
      "tracktags", "directories", "sources", "startDirs", "exclusions", "metadata"] ∧
    (createdFile.content.files = [] ∧ createdFile.content.artists = [] ∧
      createdFile.content.simartists = [] ∧ createdFile.content.tags = [] ∧
      createdFile.content.tracktags = [] ∧ createdFile.content.directories = [] ∧
      createdFile.content.sources = [] ∧ createdFile.content.startDirs = [] ∧
      createdFile.content.exclusions = [] ∧
      createdFile.content.metadata = [("version", some "3")]) ∧
    version createdFile = Except.ok 3 := by
  have hm : f.tables.contains "metadata" = true := ((version_ok_iff f v).1 hv).1
  obtain ⟨f1, hd⟩ := dropFold_succeeds f.tables f hnodup (fun t ht => ht) hnoseq
  have hd2 : dropAll f = (Except.ok (), f1) := hd
  have hempty := dropAll_ok f f1 () hd2
  refine ⟨⟨f1, hd2, hempty⟩, ?_, rfl, ⟨rfl, rfl, rfl, rfl, rfl, rfl, rfl, rfl, rfl, rfl⟩, rfl⟩
  conv_lhs => unfold initDatabase
  simp only [hm, Bool.not_true, Bool.false_eq_true, if_false, versionCheck, hv,
    LOCAL_COLLECTION_SCHEMA_VERSION_INT, hlt, if_true, hd2]
  exact initDatabase_no_tables n f1 hempty

/-- The upgrade of a file of version 2 that has no `sqlite_sequence` table and
holds rows and a table the schema does not have. -/
theorem initDatabase_upgrade_witness :
    (oldFile.tables.Nodup ∧ "sqlite_sequence" ∉ oldFile.tables ∧
      version oldFile = Except.ok 2 ∧ (2 : Int) < 3) ∧
    oldFile.content.files ≠ [] ∧
    initDatabase 2 oldFile = some (Except.ok (), createdFile) :=
  ⟨⟨by decide, by decide, rfl, by decide⟩, by decide,
    (initDatabase_upgrade oldFile 2 0 (by decide) (by decide) rfl (by decide)).2.1⟩

theorem dropFold_sequence (l : List String) (g : DbFile) (h : "sqlite_sequence" ∈ l) :
    ∃ e g2, l.foldl (fun r table => andThen r fun g => dropTable g table) (Except.ok (), g) =
      (Except.error e, g2) := by
  induction l generalizing g with
  | nil => simp at h
  | cons t rest ih =>
    rw [List.foldl_cons]
    cases hstep : andThen (Except.ok (), g) (fun g => dropTable g t) with
    | mk res g1 =>
      cases res with
      | error e => exact ⟨e, g1, andThen_fold_error _ rest e g1⟩
      | ok u =>
        rcases List.mem_cons.1 h with ht | ht
        · have : andThen (Except.ok (), g) (fun g => dropTable g t) =
              (Except.error { what := "table sqlite_sequence may not be dropped" }, g) := by
            simp only [andThen, dropTable, ← ht, if_true]
          rw [this] at hstep
          simp at hstep
        · exact ih g1 ht

/-- On every file that has the table `sqlite_sequence` (every file in which
this code has created its schema) and whose `version()` is below 3,
`initDatabase` ends with a `QueryError`: the loop of `versionCheck` cannot
drop `sqlite_sequence`, and the schema is not created again. -/
theorem initDatabase_upgrade_rejected (f : DbFile) (v : Int) (n : Nat)
    (hseq : "sqlite_sequence" ∈ f.tables) (hv : version f = Except.ok v) (hlt : v < 3) :
    ∃ e f1, initDatabase (n + 1) f = some (Except.error e, f1) := by
  have hm : f.tables.contains "metadata" = true := ((version_ok_iff f v).1 hv).1
  obtain ⟨e, f1, hd⟩ := dropFold_sequence f.tables f hseq
  have hd2 : dropAll f = (Except.error e, f1) := hd
  refine ⟨e, f1, ?_⟩
  conv_lhs => unfold initDatabase
  simp only [hm, Bool.not_true, Bool.false_eq_true, if_false, versionCheck, hv,
    LOCAL_COLLECTION_SCHEMA_VERSION_INT, hlt, if_true, hd2]

/-- C13, evaluated on a file with the tables that `initDatabase` creates and
the version 2: `versionCheck` drops the table `files`, the `DROP TABLE
sqlite_sequence` that follows is rejected, and `initDatabase` ends with this
error; the other tables are not dropped and keep their rows, the schema is
not created again and `version()` is still 2. -/
theorem initDatabase_upgrade_fails :
    version version2File = Except.ok 2 ∧
    initDatabase 2 version2File =
      some (Except.error (QueryError.mk "table sqlite_sequence may not be dropped"),
        DbFile.mk ["sqlite_sequence", "artists", "simartists", "tags", "tracktags",
            "directories", "sources", "startDirs", "exclusions", "metadata"]
          { version2File.content with files := [], filesSeq := 0 }) ∧
    version2File.content.artists ≠ [] ∧
    version (DbFile.mk ["sqlite_sequence", "artists", "simartists", "tags", "tracktags",
        "directories", "sources", "startDirs", "exclusions", "metadata"]
      { version2File.content with files := [], filesSeq := 0 }) = Except.ok 2 := by
  refine ⟨rfl, rfl, by decide, rfl⟩

/-- C16, evaluated: opening a file without tables creates the schema; the
`CREATE TABLE tracktags` of `initDatabase` has the columns `file`, `tag` and
`weight` and no `user_id`, so the created table lacks a column that the
`INSERT` of `insertTrackTag` writes and the `DELETE` of
`deleteTrackTagsForArtist` filters on, and both fail on the created store. -/
theorem created_tracktags_without_user_id :
    initDatabase 2 emptyFile = some (Except.ok (), createdFile) ∧
    schema.lookup "tracktags" = some ["file", "tag", "weight"] ∧
    createdFile.content.tracktagsColumns = ["file", "tag", "weight"] ∧
    hasColumns createdFile.content.tracktagsColumns ["file", "tag", "weight", "user_id"]
      = false ∧
    hasColumns createdFile.content.tracktagsColumns ["user_id", "file"] = false ∧
    (insertTrackTag { db := createdFile.content, trace := [] } 1 1 0 50).1 =
      Except.error { what := "no such column" } ∧
    (deleteTrackTagsForArtist { db := createdFile.content, trace := [] } 1 0).1 =
      Except.error { what := "no such column" } := by
  refine ⟨rfl, by decide, rfl, by decide, by decide, rfl, rfl⟩

/-- C19: `initDatabase` returns for every file, with a result that is the same
for every bound of at least 2 on the nested calls of `initDatabase`: it is
entered again at most once. The version string that it seeds reads as the
expected version 3, so that after the schema has been created again
`versionCheck` does not drop the tables; for a file of version 2 it is
entered again once. -/
theorem initDatabase_terminates (f : DbFile) :
    (∃ r, ∀ n, initDatabase (n + 2) f = some r) ∧
    parseLongLong LOCAL_COLLECTION_SCHEMA_VERSION_STR =
      some LOCAL_COLLECTION_SCHEMA_VERSION_INT ∧
    version createdFile = Except.ok LOCAL_COLLECTION_SCHEMA_VERSION_INT ∧
    ¬ (LOCAL_COLLECTION_SCHEMA_VERSION_INT < LOCAL_COLLECTION_SCHEMA_VERSION_INT) ∧
    initDatabase 1 oldFile = none ∧
    initDatabase 2 oldFile = some (Except.ok (), createdFile) := by
  refine ⟨initDatabase_total f, by decide, rfl, by decide, rfl, rfl⟩

end LocalCollection
